import Mathlib

/-!
Verification development for the Vulnera LSP adapter (Rust sources under `src/`).

Strings from the Rust code are modelled as `List Char` (`Str`); byte offsets
(Rust `usize` indices into UTF-8 `str`) are modelled as `Nat` computed with the
UTF-8 width of each character, and UTF-16 code-unit counts likewise.  Maps
(`DashMap`, `HashMap`) are modelled as association lists with unique keys
(insert replaces, iteration order is unspecified in Rust and is modelled as
list order).  The tokio task machinery is modelled as a token-based transition
system: spawning records a fresh token in `pending`, aborting removes it, and a
sleep expiry only fires when its token is still the current one (cooperative
cancellation at the sleep boundary).
-/

namespace Vulnera

abbrev Str := List Char

/-- UTF-8 byte width of a character, as Rust's `char::len_utf8`. -/
def rsUtf8Len (c : Char) : Nat :=
  if c.val < 0x80 then 1
  else if c.val < 0x800 then 2
  else if c.val < 0x10000 then 3
  else 4

/-- UTF-16 code-unit width of a character, as Rust's `char::len_utf16`. -/
def rsUtf16Len (c : Char) : Nat :=
  if c.val < 0x10000 then 1 else 2

/-- Byte length of a string (Rust `str::len`). -/
def byteLen (s : Str) : Nat := (s.map rsUtf8Len).sum

/-- ASCII whitespace class of the regex crate's `\s` (restricted to ASCII;
all inputs considered in this development are ASCII-whitespace only). -/
def rsIsWs (c : Char) : Bool :=
  c == ' ' || c == '\t' || c == '\n' || c == '\r' || c == '\x0b' || c == '\x0c'

/-- ASCII lowercasing, modelling `str::to_lowercase` on the ASCII ecosystem
keys it is applied to. -/
def rsLower (s : Str) : Str := s.map Char.toLower

/-- Rust `str::trim` (whitespace from both ends). -/
def rsTrim (s : Str) : Str :=
  ((s.dropWhile (fun c => rsIsWs c)).reverse.dropWhile (fun c => rsIsWs c)).reverse

/-- LSP position (line and character), `tower_lsp::lsp_types::Position`. -/
structure PositionM where
  line : Nat
  character : Nat
deriving DecidableEq, Repr

/-- LSP range, `tower_lsp::lsp_types::Range`. -/
structure RangeM where
  start : PositionM
  stop : PositionM
deriving DecidableEq, Repr

/-- The type `tower_lsp::lsp_types::DiagnosticSeverity` (ERROR/WARNING/INFORMATION/HINT). -/
inductive SeverityM where
  | error | warning | information | hint
deriving DecidableEq, Repr

/-- The type `tower_lsp::lsp_types::Diagnostic`, restricted to the fields the adapter
sets to non-constant values (`code`, `code_description`, `related_information`,
`tags` and `data` are constantly `None` in the sources and are omitted). -/
structure DiagnosticM where
  range : RangeM
  severity : Option SeverityM
  source : Option Str
  message : Str
deriving DecidableEq, Repr

/-- A `Url`: modelled by its full serialisation (`Url::to_string`) and its
path component (`Url::path`), the only two observers the adapter uses. -/
structure UrlM where
  full : Str
  path : Str
deriving DecidableEq, Repr

/-! ## Offset/position conversion (identical private helpers in
`diagnostics.rs`, `package_locator.rs` and `code_actions.rs`). -/

/-- Rust `offset_to_position`: walks the text counting newlines for the line and
characters (code points) for the column, stopping once the accumulated UTF-8
byte count reaches `offset`. -/
def offsetToPositionGo (offset : Nat) : Str → Nat → Nat → Nat → Nat × Nat
  | [], line, col, _ => (line, col)
  | c :: rest, line, col, count =>
    if count ≥ offset then (line, col)
    else if c = '\n' then offsetToPositionGo offset rest (line + 1) 0 (count + rsUtf8Len c)
    else offsetToPositionGo offset rest line (col + 1) (count + rsUtf8Len c)

def offsetToPosition (text : Str) (offset : Nat) : Nat × Nat :=
  offsetToPositionGo offset text 0 0 0

/-- Rust `span_to_range` on a byte span. -/
def spanToRange (text : Str) (start stop : Nat) : RangeM :=
  let s := offsetToPosition text start
  let e := offsetToPosition text stop
  ⟨⟨s.1, s.2⟩, ⟨e.1, e.2⟩⟩

/-! ## Regex scanners

The adapter's regexes are simple enough that each denotes a deterministic
left-to-right scan: every greedy sub-pattern (`\s*`, `[...]+`) is followed by a
token outside its character class, so backtracking never changes the match (the
one exception, the greedy `[^}]*` of the cargo inline-table pattern, is
modelled explicitly by taking the last feasible `version`-match before the
first `}`).  Scanners work on the remaining character list and track the
current UTF-8 byte position, since `regex` match spans are byte offsets. -/

/-- Match a literal (the `regex::escape`d package name substitutes literally). -/
def stripLit : Str → Str → Nat → Option (Str × Nat)
  | [], s, pos => some (s, pos)
  | _ :: _, [], _ => none
  | l :: ls, c :: cs, pos => if c = l then stripLit ls cs (pos + rsUtf8Len c) else none

/-- Greedy `\s*`. -/
def skipWs : Str → Nat → Str × Nat
  | [], pos => ([], pos)
  | c :: cs, pos => if rsIsWs c then skipWs cs (pos + rsUtf8Len c) else (c :: cs, pos)

/-- Greedy `[class]*`: returns the capture, the rest and the new byte position. -/
def takeClass (p : Char → Bool) : Str → Nat → Str × Str × Nat
  | [], pos => ([], [], pos)
  | c :: cs, pos =>
    if p c then
      let r := takeClass p cs (pos + rsUtf8Len c)
      (c :: r.1, r.2.1, r.2.2)
    else ([], c :: cs, pos)

/-- Match a single literal character. -/
def expectChar (ch : Char) : Str → Nat → Option (Str × Nat)
  | [], _ => none
  | c :: cs, pos => if c = ch then some (cs, pos + rsUtf8Len c) else none

/-- Try a matcher at every byte position, left to right (leftmost match of an
unanchored pattern, as `Regex::captures`). -/
def scanAll (m : Str → Nat → Option (Nat × Nat)) : Str → Nat → Option (Nat × Nat)
  | [], pos => m [] pos
  | c :: cs, pos =>
    match m (c :: cs) pos with
    | some r => some r
    | none => scanAll m cs (pos + rsUtf8Len c)

/-- Try a matcher at every line start (leftmost match of a `(?m)^`-anchored
pattern), the flag recording whether the current position starts a line. -/
def scanLineStartsGo (m : Str → Nat → Option (Nat × Nat)) :
    Str → Nat → Bool → Option (Nat × Nat)
  | [], pos, atStart => if atStart then m [] pos else none
  | c :: cs, pos, atStart =>
    match (if atStart then m (c :: cs) pos else none) with
    | some r => some r
    | none => scanLineStartsGo m cs (pos + rsUtf8Len c) (c = '\n')

def scanLineStarts (m : Str → Nat → Option (Nat × Nat)) (s : Str) : Option (Nat × Nat) :=
  scanLineStartsGo m s 0 true

/-- Escaped-package npm pattern `"<pkg>"\s*:\s*"(?P<ver>[^"]+)"` at one
position; returns the byte span of the `ver` capture. -/
def matchNpmEscAt (pkg : Str) (s : Str) (pos : Nat) : Option (Nat × Nat) := do
  let (s, pos) ← stripLit ('"' :: pkg ++ ['"']) s pos
  let (s, pos) := skipWs s pos
  let (s, pos) ← expectChar ':' s pos
  let (s, pos) := skipWs s pos
  let (s, pos) ← expectChar '"' s pos
  let verStart := pos
  let (ver, s, pos) := takeClass (fun c => !(c == '"')) s pos
  if ver = [] then none else
  let _ ← expectChar '"' s pos
  some (verStart, pos)

/-- Escaped-package pypi pattern
`(?m)^\s*<pkg>\s*[=<>!~]+\s*(?P<ver>[^\s#]+)` at one line start. -/
def matchPypiEscAt (pkg : Str) (s : Str) (pos : Nat) : Option (Nat × Nat) := do
  let (s, pos) := skipWs s pos
  let (s, pos) ← stripLit pkg s pos
  let (s, pos) := skipWs s pos
  let (ops, s, pos) :=
    takeClass (fun c => c == '=' || c == '<' || c == '>' || c == '!' || c == '~') s pos
  if ops = [] then none else
  let (s, pos) := skipWs s pos
  let verStart := pos
  let (ver, _, pos) := takeClass (fun c => !(rsIsWs c) && !(c == '#')) s pos
  if ver = [] then none else
  some (verStart, pos)

/-- Escaped-package cargo pattern `(?m)^\s*<pkg>\s*=\s*"(?P<ver>[^"]+)"`. -/
def matchCargoEscAt (pkg : Str) (s : Str) (pos : Nat) : Option (Nat × Nat) := do
  let (s, pos) := skipWs s pos
  let (s, pos) ← stripLit pkg s pos
  let (s, pos) := skipWs s pos
  let (s, pos) ← expectChar '=' s pos
  let (s, pos) := skipWs s pos
  let (s, pos) ← expectChar '"' s pos
  let verStart := pos
  let (ver, s, pos) := takeClass (fun c => !(c == '"')) s pos
  if ver = [] then none else
  let _ ← expectChar '"' s pos
  some (verStart, pos)

/-- The sub-pattern `version\s*=\s*"(?P<ver>[^"]+)"` at one position. -/
def matchVersionAt (s : Str) (pos : Nat) : Option (Nat × Nat) := do
  let (s, pos) ← stripLit "version".data s pos
  let (s, pos) := skipWs s pos
  let (s, pos) ← expectChar '=' s pos
  let (s, pos) := skipWs s pos
  let (s, pos) ← expectChar '"' s pos
  let verStart := pos
  let (ver, s, pos) := takeClass (fun c => !(c == '"')) s pos
  if ver = [] then none else
  let _ ← expectChar '"' s pos
  some (verStart, pos)

/-- Greedy `[^\x7d]*` followed by the `version` sub-pattern: the last position
before the first `\x7d` (or the end) at which the sub-pattern matches wins. -/
def lastVersionIn : Str → Nat → Option (Nat × Nat) → Option (Nat × Nat)
  | [], pos, best =>
    match matchVersionAt [] pos with
    | some r => some r
    | none => best
  | c :: cs, pos, best =>
    let best' :=
      match matchVersionAt (c :: cs) pos with
      | some r => some r
      | none => best
    if c = '\x7d' then best' else lastVersionIn cs (pos + rsUtf8Len c) best'

/-- Escaped-package cargo inline-table pattern
`(?m)^\s*<pkg>\s*=\s*\x7b[^\x7d]*version\s*=\s*"(?P<ver>[^"]+)"`. -/
def matchCargoInlineEscAt (pkg : Str) (s : Str) (pos : Nat) : Option (Nat × Nat) := do
  let (s, pos) := skipWs s pos
  let (s, pos) ← stripLit pkg s pos
  let (s, pos) := skipWs s pos
  let (s, pos) ← expectChar '=' s pos
  let (s, pos) := skipWs s pos
  let (s, pos) ← expectChar '\x7b' s pos
  lastVersionIn s pos none

/-! ## Generic (capturing-package) scanners of `package_locator.rs`

The four static regexes of `package_locator.rs` capture the package name with
a character class instead of substituting it; `find_with_regex` then walks
`captures_iter` (successive non-overlapping leftmost matches) and returns the
`ver` span of the first match whose `pkg` capture equals the target package.
Generic matchers therefore also return the rest of the input and the byte
position after the whole match, so the iterator can resume there. -/

def isPypiPkgChar (c : Char) : Bool :=
  c.isAlphanum || c == '_' || c == '.' || c == '-'

def isCargoPkgChar (c : Char) : Bool :=
  c.isAlphanum || c == '_' || c == '-'

/-- The pattern `"(?P<pkg>[^"]+)"\s*:\s*"(?P<ver>[^"]+)"` at one position:
returns the `pkg` capture, the `ver` byte span, and the rest/position after
the match. -/
def genNpmAt (s : Str) (pos : Nat) : Option (Str × (Nat × Nat) × Str × Nat) := do
  let (s, pos) ← expectChar '"' s pos
  let (pkg, s, pos) := takeClass (fun c => !(c == '"')) s pos
  if pkg = [] then none else
  let (s, pos) ← expectChar '"' s pos
  let (s, pos) := skipWs s pos
  let (s, pos) ← expectChar ':' s pos
  let (s, pos) := skipWs s pos
  let (s, pos) ← expectChar '"' s pos
  let verStart := pos
  let (ver, s, pos) := takeClass (fun c => !(c == '"')) s pos
  if ver = [] then none else
  let (s, pos) ← expectChar '"' s pos
  some (pkg, (verStart, verStart + byteLen ver), s, pos)

/-- The pattern `(?m)^\s*(?P<pkg>[A-Za-z0-9_.\-]+)\s*[=<>!~]+\s*(?P<ver>[^\s#]+)`. -/
def genPypiAt (s : Str) (pos : Nat) : Option (Str × (Nat × Nat) × Str × Nat) := do
  let (s, pos) := skipWs s pos
  let (pkg, s, pos) := takeClass isPypiPkgChar s pos
  if pkg = [] then none else
  let (s, pos) := skipWs s pos
  let (ops, s, pos) :=
    takeClass (fun c => c == '=' || c == '<' || c == '>' || c == '!' || c == '~') s pos
  if ops = [] then none else
  let (s, pos) := skipWs s pos
  let verStart := pos
  let (ver, s, pos) := takeClass (fun c => !(rsIsWs c) && !(c == '#')) s pos
  if ver = [] then none else
  some (pkg, (verStart, pos), s, pos)

/-- The pattern `(?m)^\s*(?P<pkg>[A-Za-z0-9_\-]+)\s*=\s*"(?P<ver>[^"]+)"`. -/
def genCargoAt (s : Str) (pos : Nat) : Option (Str × (Nat × Nat) × Str × Nat) := do
  let (s, pos) := skipWs s pos
  let (pkg, s, pos) := takeClass isCargoPkgChar s pos
  if pkg = [] then none else
  let (s, pos) := skipWs s pos
  let (s, pos) ← expectChar '=' s pos
  let (s, pos) := skipWs s pos
  let (s, pos) ← expectChar '"' s pos
  let verStart := pos
  let (ver, s, pos) := takeClass (fun c => !(c == '"')) s pos
  if ver = [] then none else
  let (s, pos) ← expectChar '"' s pos
  some (pkg, (verStart, verStart + byteLen ver), s, pos)

/-- Drop a prefix of the given UTF-8 byte width (offsets produced by the
scanners always fall on character boundaries). -/
def byteDropAux : Str → Nat → Str
  | s, 0 => s
  | [], _ => []
  | c :: cs, n => if rsUtf8Len c ≤ n then byteDropAux cs (n - rsUtf8Len c) else c :: cs

/-- Variant of `lastVersionIn` that also reports the rest/position after the
winning sub-match, for the iterator. -/
def lastVersionInFull : Str → Nat → Option ((Nat × Nat) × Str × Nat) →
    Option ((Nat × Nat) × Str × Nat)
  | [], pos, best =>
    match matchVersionAt [] pos with
    | some r => some (r, [], pos)
    | none => best
  | c :: cs, pos, best =>
    let best' :=
      match matchVersionAt (c :: cs) pos with
      | some (a, b) =>
        -- the sub-match ends one byte after the capture (the closing quote)
        some ((a, b), byteDropAux (c :: cs) (b + 1 - pos), b + 1)
      | none => best
    if c = '\x7d' then best' else lastVersionInFull cs (pos + rsUtf8Len c) best'

/-- The pattern
`(?m)^\s*(?P<pkg>[A-Za-z0-9_\-]+)\s*=\s*\x7b[^\x7d]*version\s*=\s*"(?P<ver>[^"]+)"`. -/
def genCargoInlineAt (s : Str) (pos : Nat) : Option (Str × (Nat × Nat) × Str × Nat) := do
  let (s, pos) := skipWs s pos
  let (pkg, s, pos) := takeClass isCargoPkgChar s pos
  if pkg = [] then none else
  let (s, pos) := skipWs s pos
  let (s, pos) ← expectChar '=' s pos
  let (s, pos) := skipWs s pos
  let (s, pos) ← expectChar '\x7b' s pos
  let (span, rest, after) ← lastVersionInFull s pos none
  some (pkg, span, rest, after)

/-- Walk successive matches of an unanchored generic pattern and return the
`ver` span of the first whose `pkg` capture equals `package`
(`captures_iter(...).find_map` in `find_with_regex`). -/
def iterScanAll (m : Str → Nat → Option (Str × (Nat × Nat) × Str × Nat))
    (package : Str) : Nat → Str → Nat → Option (Nat × Nat)
  | 0, _, _ => none
  | Nat.succ fuel, s, pos =>
    match m s pos with
    | some (pkg, span, rest, pos') =>
      if pkg = package then some span else iterScanAll m package fuel rest pos'
    | none =>
      match s with
      | [] => none
      | c :: cs => iterScanAll m package fuel cs (pos + rsUtf8Len c)

/-- As `iterScanAll` for `(?m)^`-anchored patterns: only line starts are
candidate match starts. -/
def iterScanLS (m : Str → Nat → Option (Str × (Nat × Nat) × Str × Nat))
    (package : Str) : Nat → Str → Nat → Bool → Option (Nat × Nat)
  | 0, _, _, _ => none
  | Nat.succ fuel, s, pos, atStart =>
    match (if atStart then m s pos else none) with
    | some (pkg, span, rest, pos') =>
      if pkg = package then some span else iterScanLS m package fuel rest pos' false
    | none =>
      match s with
      | [] => none
      | c :: cs => iterScanLS m package fuel cs (pos + rsUtf8Len c) (c = '\n')

/-- Take a prefix of the given UTF-8 byte width. -/
def byteTake : Str → Nat → Str
  | _, 0 => []
  | [], _ => []
  | c :: cs, n => if rsUtf8Len c ≤ n then c :: byteTake cs (n - rsUtf8Len c) else []

/-- The substring of a byte span (`&text[a..b]` on boundary offsets). -/
def byteSlice (s : Str) (a b : Nat) : Str := byteTake (byteDropAux s a) (b - a)

/-! ## The three locator front-ends. -/

/-- Private `find_package_range` of `diagnostics.rs`: escaped-package pattern
per ecosystem, first match (`Regex::captures`).  Note the cargo arm tries only
the plain `<pkg> = "<ver>"` pattern — there is no inline-table fallback here. -/
def findPackageRange (text ecosystem package : Str) : Option RangeM :=
  let e := rsLower ecosystem
  let span? :=
    if e = "npm".data then scanAll (matchNpmEscAt package) text 0
    else if e = "pypi".data || e = "pip".data || e = "python".data then
      scanLineStarts (matchPypiEscAt package) text
    else if e = "cargo".data || e = "rust".data then
      scanLineStarts (matchCargoEscAt package) text
    else none
  span?.map (fun p => spanToRange text p.1 p.2)

/-- Public `find_package_version_range` of `package_locator.rs`: generic
regexes with a `pkg` capture compared against the package; the cargo arm tries
the plain pattern first and the inline-table pattern second. -/
def findPackageVersionRange (text ecosystem package : Str) : Option RangeM :=
  let e := rsLower ecosystem
  let fuel := text.length + 1
  let span? :=
    if e = "npm".data then iterScanAll genNpmAt package fuel text 0
    else if e = "pypi".data || e = "pip".data || e = "python".data then
      iterScanLS genPypiAt package fuel text 0 true
    else if e = "cargo".data || e = "rust".data then
      match iterScanLS genCargoAt package fuel text 0 true with
      | some r => some r
      | none => iterScanLS genCargoInlineAt package fuel text 0 true
    else none
  span?.map (fun p => spanToRange text p.1 p.2)

/-- Private `find_version_range` of `code_actions.rs`: escaped-package
patterns tried in order (for cargo: plain, then inline table); returns the
range and the captured version text. -/
def findVersionRange (ecosystem package text : Str) : Option (RangeM × Str) :=
  let e := rsLower ecosystem
  let span? :=
    if e = "npm".data then scanAll (matchNpmEscAt package) text 0
    else if e = "pypi".data || e = "pip".data || e = "python".data then
      scanLineStarts (matchPypiEscAt package) text
    else if e = "cargo".data || e = "rust".data then
      match scanLineStarts (matchCargoEscAt package) text with
      | some r => some r
      | none => scanLineStarts (matchCargoInlineEscAt package) text
    else none
  span?.map (fun p => (spanToRange text p.1 p.2, byteSlice text p.1 p.2))

/-! ## DTOs of `api.rs`

Fields the adapter never reads (`description`, `references`, `sources`,
`packages`, the opaque `dependency_graph`, `cache_hit`, per-file
`workspace_path`, `filename`, and the impact/notes fields of the
recommendation DTO) are omitted from the model. -/

structure AffectedPackageDto where
  name : Str
  version : Str
  ecosystem : Str
deriving DecidableEq, Repr

structure VulnerabilityDto where
  id : Str
  summary : Str
  severity : Str
  affected_packages : List AffectedPackageDto
deriving DecidableEq, Repr

structure SeverityBreakdownDto where
  critical : Nat
  high : Nat
  medium : Nat
  low : Nat
deriving DecidableEq, Repr

structure AnalysisMetadataDto where
  total_packages : Nat
  vulnerable_packages : Nat
  total_vulnerabilities : Nat
  severity_breakdown : SeverityBreakdownDto
deriving DecidableEq, Repr

structure VersionRecommendationDto where
  package : Str
  ecosystem : Str
  current_version : Option Str
  nearest_safe_above_current : Option Str
  most_up_to_date_safe : Option Str
  next_safe_minor_within_current_major : Option Str
deriving DecidableEq, Repr

structure FileAnalysisResult where
  file_id : Option Str
  ecosystem : Str
  vulnerabilities : List VulnerabilityDto
  version_recommendations : Option (List VersionRecommendationDto)
  metadata : AnalysisMetadataDto
  error : Option Str
deriving DecidableEq, Repr

structure BatchAnalysisMetadata where
  request_id : Option Str
  total_files : Nat
  successful : Nat
  failed : Nat
  total_vulnerabilities : Nat
deriving DecidableEq, Repr

structure BatchDependencyAnalysisResponse where
  results : List FileAnalysisResult
  metadata : BatchAnalysisMetadata
deriving DecidableEq, Repr

structure DependencyFileRequest where
  file_id : Option Str
  file_content : Str
  ecosystem : Str
  filename : Option Str
  workspace_path : Option Str
deriving DecidableEq, Repr

structure BatchDependencyAnalysisRequest where
  files : List DependencyFileRequest
  enable_cache : Bool
  compact_mode : Bool
deriving DecidableEq, Repr

/-! ## `diagnostics.rs` -/

def defaultRange : RangeM := ⟨⟨0, 0⟩, ⟨0, 0⟩⟩

/-- `map_severity` (case-insensitive on the severity string). -/
def mapSeverity (severity : Str) : SeverityM :=
  let s := rsLower severity
  if s = "critical".data then .error
  else if s = "high".data then .error
  else if s = "medium".data then .warning
  else if s = "low".data then .information
  else .hint

/-- The `" [lang: {}]"` suffix appended when a non-blank language id is known. -/
def langSuffix (languageId : Option Str) : Str :=
  match languageId with
  | some v => if rsTrim v = [] then [] else " [lang: ".data ++ v ++ "]".data
  | none => []

/-- Decimal rendering of a `usize`, for `format!` interpolation. -/
def natStr (n : Nat) : Str := (Nat.repr n).data

/-- `info_diagnostic`: the single Hint-severity "scan complete" diagnostic. -/
def infoDiagnostic (documentText : Str) (result : FileAnalysisResult)
    (languageId : Option Str) : DiagnosticM :=
  { range := if documentText = [] then defaultRange else ⟨⟨0, 0⟩, ⟨0, 1⟩⟩
    severity := some .hint
    source := some "vulnera".data
    message := "Dependency scan complete: ".data
      ++ natStr result.metadata.total_vulnerabilities
      ++ " vulnerabilities".data ++ langSuffix languageId }

/-- `build_diagnostics`: one diagnostic per (vulnerability, affected package),
falling back to `info_diagnostic` when none is produced.  The push-loop is
rendered as `flatMap`/`map`. -/
def buildDiagnostics (result : FileAnalysisResult) (documentText : Str)
    (languageId : Option Str) : List DiagnosticM :=
  let diagnostics := result.vulnerabilities.flatMap (fun vuln =>
    vuln.affected_packages.map (fun affected => show DiagnosticM from
      { range := (findPackageRange documentText result.ecosystem affected.name).getD
          defaultRange
        severity := some (mapSeverity vuln.severity)
        source := some "vulnera".data
        message := vuln.summary ++ ": ".data ++ affected.name ++ " (".data
          ++ affected.version ++ " ".data ++ vuln.id ++ ")".data
          ++ langSuffix languageId }))
  if diagnostics = [] then [infoDiagnostic documentText result languageId]
  else diagnostics

/-- Modelled from the spec: `build_analysis_failure_diagnostic` is imported by
`state.rs` from `crate::diagnostics` but its definition is not among the
provided sources.  Per §4.B of the specification it is an Error-severity
diagnostic with source `"vulnera"`, the collapsed range `[(0,0),(0,0)]`, and a
message prefixed by `"Dependency scan failed: "`. -/
def buildAnalysisFailureDiagnostic (msg : Str) : DiagnosticM :=
  { range := defaultRange
    severity := some .error
    source := some "vulnera".data
    message := "Dependency scan failed: ".data ++ msg }

/-! ## Claim-side text observers

The following two definitions are not translations of source functions: they
formalise the claims' reading of an LSP range (line plus UTF-16 column) so
locator output can be compared against it. -/

/-- Split a text into its lines (separator `\n`, trailing line included). -/
def splitOnNl : Str → List Str
  | [] => [[]]
  | c :: cs =>
    match splitOnNl cs with
    | [] => [[]]
    | l :: ls => if c = '\n' then [] :: l :: ls else (c :: l) :: ls

/-- Character index within a line at an exact UTF-16 column (none when the
column overshoots the line or falls inside a surrogate pair). -/
def utf16ColToIdx : Str → Nat → Option Nat
  | _, 0 => some 0
  | [], _ => none
  | c :: cs, col =>
    if rsUtf16Len c ≤ col then (utf16ColToIdx cs (col - rsUtf16Len c)).map (· + 1)
    else none

/-- Global character index of an LSP position interpreted per the LSP
specification: `line` counts newlines, `character` counts UTF-16 code units. -/
def charIdxOfUtf16Pos (text : Str) (line col : Nat) : Option Nat :=
  let lines := splitOnNl text
  if h : line < lines.length then
    let before := (lines.take line).foldl (fun a l => a + l.length + 1) 0
    (utf16ColToIdx (lines.get ⟨line, h⟩) col).map (· + before)
  else none

/-- The substring of `text` delimited by an LSP range under the UTF-16
interpretation of columns. -/
def extractUtf16 (text : Str) (r : RangeM) : Option Str := do
  let a ← charIdxOfUtf16Pos text r.start.line r.start.character
  let b ← charIdxOfUtf16Pos text r.stop.line r.stop.character
  some ((text.take b).drop a)

/-! ## `lsp.rs`: incremental document synchronisation -/

/-- The type `TextDocumentContentChangeEvent` (the deprecated `range_length`
field is never read). -/
structure ContentChange where
  range : Option RangeM
  text : Str
deriving DecidableEq, Repr

/-- Byte index of the first `\n` (Rust `str::find`). -/
def findNl : Str → Option Nat
  | [] => none
  | c :: cs => if c = '\n' then some 0 else (findNl cs).map (· + rsUtf8Len c)

/-- Drop through the first `\n`, returning the rest and the bytes consumed
(including the newline); none when no newline remains. -/
def dropLine : Str → Option (Str × Nat)
  | [] => none
  | c :: cs =>
    if c = '\n' then some (cs, rsUtf8Len c)
    else (dropLine cs).map (fun r => (r.1, rsUtf8Len c + r.2))

/-- Advance past `n` newlines accumulating the byte offset of the line start. -/
def advanceLines : Nat → Str → Nat → Option (Str × Nat)
  | 0, s, acc => some (s, acc)
  | Nat.succ n, s, acc =>
    match dropLine s with
    | none => none
    | some (rest, w) => advanceLines n rest (acc + w)

/-- The per-line walk of `position_to_offset_utf16`: find the byte index on
the line whose accumulated UTF-16 width equals the target column. -/
def utf16Walk (target : Nat) : Str → Nat → Nat → Option Nat
  | [], col, idx => if col = target then some idx else none
  | c :: cs, col, idx =>
    if col = target then some idx
    else if target < col + rsUtf16Len c then none
    else utf16Walk target cs (col + rsUtf16Len c) (idx + rsUtf8Len c)

/-- `position_to_offset_utf16`: byte offset of an LSP position, walking lines
by newline search and columns by UTF-16 width. -/
def positionToOffsetUtf16 (text : Str) (pos : PositionM) : Option Nat := do
  let (rest, lineStart) ← advanceLines pos.line text 0
  let lineContent := rest.takeWhile (fun c => !(c == '\n'))
  let idx ← utf16Walk pos.character lineContent 0 0
  some (lineStart + idx)

/-- `apply_content_changes`.  The Rust function mutates the buffer in place
and reports `Err(msg)`; the model's error value carries both the message and
the partially updated buffer, since the caller's fallback closes over it.
The `format!` payloads of the messages (debug-printed positions, offsets) are
elided. -/
def applyContentChanges : Str → List ContentChange → Except (Str × Str) Str
  | text, [] => .ok text
  | text, change :: rest =>
    match change.range with
    | some r =>
      match positionToOffsetUtf16 text r.start with
      | none => .error ("Invalid start position".data, text)
      | some a =>
        match positionToOffsetUtf16 text r.stop with
        | none => .error ("Invalid end position".data, text)
        | some b =>
          if a > b || b > byteLen text then
            .error ("Invalid edit range offsets".data, text)
          else applyContentChanges (byteTake text a ++ change.text ++ byteDropAux text b) rest
    | none => applyContentChanges change.text rest

/-- The text stored by `did_change`: the result of `apply_content_changes`,
or on failure the `text` field of the last change event (`unwrap_or` keeps
the partially updated buffer only when the event list is empty, which cannot
coincide with a failure). -/
def didChangeNewText (prev : Str) (changes : List ContentChange) : Str :=
  match applyContentChanges prev changes with
  | .ok t => t
  | .error e =>
    match changes.getLast? with
    | some c => c.text
    | none => e.2

/-! ## `code_actions.rs` -/

structure TextEditM where
  range : RangeM
  newText : Str
deriving DecidableEq, Repr

/-- The type `WorkspaceEdit` restricted to its `changes` map (the adapter sets
`document_changes` and `change_annotations` to `None`). -/
structure WorkspaceEditM where
  changes : Option (List (UrlM × List TextEditM))
deriving DecidableEq, Repr

/-- The single JSON argument of `vulnera.applyRecommendation`. -/
structure CommandPayload where
  package : Str
  ecosystem : Str
  strategy : Str
  language_id : Option Str
  nearest_safe_above_current : Option Str
  most_up_to_date_safe : Option Str
  next_safe_minor_within_current_major : Option Str
deriving DecidableEq, Repr

structure CommandM where
  title : Str
  command : Str
  arguments : Option (List CommandPayload)
deriving DecidableEq, Repr

/-- The type `CodeAction`; `kind` is constantly quick-fix in the builders and
`diagnostics`/`disabled`/`data` are constantly `None` there (the façade later
attaches diagnostics), so only the varying fields are modelled. -/
structure CodeActionM where
  title : Str
  edit : Option WorkspaceEditM
  command : Option CommandM
  isPreferred : Option Bool
deriving DecidableEq, Repr

/-- `find_version_edit`: a `TextEdit` replacing the located range with the new
version. -/
def findVersionEdit (ecosystem package newVersion text : Str) : Option TextEditM :=
  (findVersionRange ecosystem package text).map (fun r => ⟨r.1, newVersion⟩)

/-- `make_edit_action`. -/
def makeEditAction (title : Str) (uri : UrlM) (edit : TextEditM)
    (preferred : Bool) : CodeActionM :=
  { title := title
    edit := some ⟨some [(uri, [edit])]⟩
    command := none
    isPreferred := some preferred }

/-- `make_command_action`. -/
def makeCommandAction (title : Str) (rec : VersionRecommendationDto)
    (strategy : Str) (languageId : Option Str) : CodeActionM :=
  let languageId := match languageId with
    | some v => if rsTrim v = [] then none else some v
    | none => none
  { title := title
    edit := none
    command := some
      { title := title
        command := "vulnera.applyRecommendation".data
        arguments := some [{ package := rec.package
                             ecosystem := rec.ecosystem
                             strategy := strategy
                             language_id := languageId
                             nearest_safe_above_current := rec.nearest_safe_above_current
                             most_up_to_date_safe := rec.most_up_to_date_safe
                             next_safe_minor_within_current_major :=
                               rec.next_safe_minor_within_current_major }] }
    isPreferred := some (strategy = "nearest_safe_above_current".data) }

/-- The `" [{}]"` language suffix of `build_code_actions` titles. -/
def langSuffixBracket (languageId : Option Str) : Str :=
  match languageId with
  | some v => if rsTrim v = [] then [] else " [".data ++ v ++ "]".data
  | none => []

/-- `build_code_actions`: the per-recommendation loop with its three strategy
blocks, rendered as `flatMap` of the concatenated blocks. -/
def buildCodeActions (uri : UrlM) (ecosystem : Str) (documentText : Str)
    (recommendations : List VersionRecommendationDto)
    (languageId : Option Str) : List CodeActionM :=
  recommendations.flatMap (fun rec =>
    let titlePre := rec.ecosystem ++ ": ".data ++ rec.package ++ langSuffixBracket languageId
    (match rec.nearest_safe_above_current with
     | none => []
     | some v =>
       [match findVersionEdit ecosystem rec.package v documentText with
        | some e => makeEditAction (titlePre ++ " -> nearest safe ".data ++ v) uri e true
        | none => makeCommandAction (titlePre ++ " -> nearest safe ".data ++ v) rec
            "nearest_safe_above_current".data languageId])
    ++ (match rec.most_up_to_date_safe with
     | none => []
     | some v =>
       [match findVersionEdit ecosystem rec.package v documentText with
        | some e => makeEditAction (titlePre ++ " -> latest safe ".data ++ v) uri e false
        | none => makeCommandAction (titlePre ++ " -> latest safe ".data ++ v) rec
            "most_up_to_date_safe".data languageId])
    ++ (match rec.next_safe_minor_within_current_major with
     | none => []
     | some v =>
       [match findVersionEdit ecosystem rec.package v documentText with
        | some e => makeEditAction (titlePre ++ " -> next safe minor ".data ++ v) uri e false
        | none => makeCommandAction (titlePre ++ " -> next safe minor ".data ++ v) rec
            "next_safe_minor_within_current_major".data languageId]))

/-! ## `state.rs`: document store, scheduler and batch analysis

The concurrent maps are association lists whose insert replaces (and thus
keeps keys unique); iteration order is unspecified in Rust and modelled as
list order.  Spawned debounce tasks are identified by fresh `Nat` tokens
recorded in `pending`; `abort` removes the token, and a timer expiry only has
an effect while its token is still the recorded one — this is the cooperative
cancellation-at-the-sleep-boundary semantics of §5 of the specification. -/

def alookup {β : Type} : List (UrlM × β) → UrlM → Option β
  | [], _ => none
  | (k, v) :: rest, a => if k = a then some v else alookup rest a

def aremove {β : Type} : List (UrlM × β) → UrlM → List (UrlM × β)
  | [], _ => []
  | (k, v) :: rest, a => if k = a then aremove rest a else (k, v) :: aremove rest a

def ainsert {β : Type} (l : List (UrlM × β)) (a : UrlM) (b : β) : List (UrlM × β) :=
  (a, b) :: aremove l a

def slookup {β : Type} : List (Str × β) → Str → Option β
  | [], _ => none
  | (k, v) :: rest, a => if k = a then some v else slookup rest a

def sremove {β : Type} : List (Str × β) → Str → List (Str × β)
  | [], _ => []
  | (k, v) :: rest, a => if k = a then sremove rest a else (k, v) :: sremove rest a

def sinsert {β : Type} (l : List (Str × β)) (a : Str) (b : β) : List (Str × β) :=
  (a, b) :: sremove l a

/-- The type `DocumentSnapshot`. -/
structure DocumentSnapshot where
  uri : UrlM
  text : Str
  version : Int
  language_id : Option Str
  file_name : Option Str
  workspace_path : Option Str
  ecosystem : Str
deriving DecidableEq, Repr

/-- The type `AnalysisCache`. -/
structure AnalysisCacheM where
  result : FileAnalysisResult
  diagnostics : List DiagnosticM
deriving DecidableEq, Repr

/-- The configuration fields the scheduler reads when building a batch. -/
structure ConfigM where
  enable_cache : Bool
  compact_mode : Bool
deriving DecidableEq, Repr

/-- The mutable maps of `ServerState` plus the token counter of the task
model. -/
structure ServerStateM where
  documents : List (UrlM × DocumentSnapshot)
  analysis : List (UrlM × AnalysisCacheM)
  pending : List (Str × Nat)
  dirty_by_workspace : List (Str × List UrlM)
  nextToken : Nat
  config : ConfigM
deriving DecidableEq, Repr

def initState (cfg : ConfigM) : ServerStateM :=
  { documents := [], analysis := [], pending := [], dirty_by_workspace := []
    nextToken := 0, config := cfg }

/-- Observable effects sent to the LSP client or the HTTP service. -/
inductive Output where
  | publish (uri : UrlM) (diagnostics : List DiagnosticM) (version : Option Int)
  | request (req : BatchDependencyAnalysisRequest)
  | showMessage (msg : Str)
  | logMessage (msg : Str)
deriving DecidableEq, Repr

/-- `rsplit_once('/')`: split at the last slash. -/
def rsplitOnceSlash : Str → Option (Str × Str)
  | [] => none
  | c :: rest =>
    match rsplitOnceSlash rest with
    | some (pre, suf) => some (c :: pre, suf)
    | none => if c = '/' then some ([], rest) else none

/-- `workspace_key_for_path`. -/
def workspaceKeyForPath (workspacePath : Option Str) (uri : UrlM) : Str :=
  let candidate :=
    match workspacePath with
    | some v => if rsTrim v = [] then uri.path else v
    | none => uri.path
  match rsplitOnceSlash candidate with
  | some (pre, _) => if pre = [] then candidate else pre
  | none => candidate

/-- The workspace key of a stored snapshot (always derived from its
`workspace_path` and its map key, as in `schedule_analysis` and
`remove_document`). -/
def snapKey (snap : DocumentSnapshot) (uri : UrlM) : Str :=
  workspaceKeyForPath snap.workspace_path uri

/-- Insert into a dirty `HashSet` (append if absent). -/
def dirtyInsert (l : List (Str × List UrlM)) (key : Str) (uri : UrlM) :
    List (Str × List UrlM) :=
  match slookup l key with
  | some us => sinsert l key (if uri ∈ us then us else us ++ [uri])
  | none => sinsert l key [uri]

/-- `schedule_analysis`: early-out on a missing snapshot; on an
unknown-ecosystem snapshot clear the cache entry and publish an empty list;
otherwise mark dirty, abort the pending task for the key and record a fresh
one. -/
def scheduleAnalysis (st : ServerStateM) (uri : UrlM) : ServerStateM × List Output :=
  match alookup st.documents uri with
  | none => (st, [])
  | some snap =>
    if snap.ecosystem = "unknown".data then
      ({ st with analysis := aremove st.analysis uri },
       [.publish uri [] (some snap.version)])
    else
      let key := snapKey snap uri
      let tok := st.nextToken
      ({ st with
          dirty_by_workspace := dirtyInsert st.dirty_by_workspace key uri
          pending := sinsert (sremove st.pending key) key tok
          nextToken := tok + 1 },
       [])

/-- The atomic drain of `dirty_by_workspace\[key\]`. -/
def drainDirty (st : ServerStateM) (key : Str) : ServerStateM × List UrlM :=
  match slookup st.dirty_by_workspace key with
  | none => (st, [])
  | some uris =>
    ({ st with dirty_by_workspace := sremove st.dirty_by_workspace key }, uris)

/-- Snapshots of the drained URIs that still exist and are not `unknown`. -/
def collectSnapshots (st : ServerStateM) (uris : List UrlM) : List DocumentSnapshot :=
  (uris.filterMap (alookup st.documents)).filter
    (fun snap => !(snap.ecosystem = "unknown".data : Bool))

/-- The `snapshot_by_file_id` map (`HashMap` collect: a later duplicate key
overwrites an earlier one). -/
def mkByFileId (snaps : List DocumentSnapshot) : List (Str × DocumentSnapshot) :=
  snaps.foldl (fun m snap => sinsert m snap.uri.full snap) []

/-- The `BatchDependencyAnalysisRequest` built from the drained snapshots. -/
def buildRequest (cfg : ConfigM) (snaps : List DocumentSnapshot) :
    BatchDependencyAnalysisRequest :=
  { files := snaps.map (fun snap =>
      { file_id := some snap.uri.full
        file_content := snap.text
        ecosystem := snap.ecosystem
        filename := snap.file_name
        workspace_path := snap.workspace_path })
    enable_cache := cfg.enable_cache
    compact_mode := cfg.compact_mode }

/-- One publish-and-cache step shared by both demultiplexing loops: a result
with `error` set publishes the failure diagnostic and skips the cache;
otherwise diagnostics are built from the snapshot's text and the cache entry
is overwritten. -/
def resultStep (snap : DocumentSnapshot) (result : FileAnalysisResult) :
    Output × Option (UrlM × AnalysisCacheM) :=
  match result.error with
  | some err =>
    (.publish snap.uri [buildAnalysisFailureDiagnostic err] (some snap.version), none)
  | none =>
    let diagnostics := buildDiagnostics result snap.text snap.language_id
    (.publish snap.uri diagnostics (some snap.version),
     some (snap.uri, ⟨result, diagnostics⟩))

/-- The `file_id`-lookup demultiplexing loop; stops at the first unknown
`file_id`, keeping the outputs and cache writes already performed. -/
def processWithIds (byId : List (Str × DocumentSnapshot)) :
    List FileAnalysisResult →
    List Output × List (UrlM × AnalysisCacheM) × Option Str
  | [] => ([], [], none)
  | result :: rest =>
    match result.file_id with
    | none => ([], [], some "Missing file_id in batch response".data)
    | some fid =>
      match slookup byId fid with
      | none =>
        ([], [], some ("Unknown file_id returned by analysis service: ".data ++ fid))
      | some snap =>
        let step := resultStep snap result
        let r := processWithIds byId rest
        (step.1 :: r.1, (step.2.toList) ++ r.2.1, r.2.2)

/-- The positional demultiplexing loop over `zip`. -/
def processPositional :
    List (DocumentSnapshot × FileAnalysisResult) →
    List Output × List (UrlM × AnalysisCacheM)
  | [] => ([], [])
  | (snap, result) :: rest =>
    let step := resultStep snap result
    let r := processPositional rest
    (step.1 :: r.1, (step.2.toList) ++ r.2)

def applyCaches (analysis : List (UrlM × AnalysisCacheM))
    (writes : List (UrlM × AnalysisCacheM)) : List (UrlM × AnalysisCacheM) :=
  writes.foldl (fun m w => ainsert m w.1 w.2) analysis

/-- `run_batch_analysis` with the HTTP round-trip injected as `resp`: drain,
early-return on an empty batch, emit the request, then validate and
demultiplex the response.  The third component is the `Err` value of the Rust
function, if any. -/
def runBatchCore (st : ServerStateM) (key : Str)
    (resp : Except Str BatchDependencyAnalysisResponse) :
    ServerStateM × List Output × Option Str :=
  let d := drainDirty st key
  let st := d.1
  if d.2 = [] then (st, [], none)
  else
    let snaps := collectSnapshots st d.2
    if snaps = [] then (st, [], none)
    else
      let req := buildRequest st.config snaps
      match resp with
      | .error e => (st, [.request req], some e)
      | .ok response =>
        let logs : List Output :=
          match response.metadata.request_id with
          | some rid => [.logMessage ("Vulnera dependency batch request_id=".data ++ rid)]
          | none => []
        if !(response.results.length = snaps.length : Bool) then
          (st, [.request req] ++ logs,
           some ("Batch response cardinality mismatch: requested ".data
             ++ natStr snaps.length ++ ", received ".data
             ++ natStr response.results.length))
        else
          if response.results.all (fun r => r.file_id.isSome) then
            let p := processWithIds (mkByFileId snaps) response.results
            ({ st with analysis := applyCaches st.analysis p.2.1 },
             [.request req] ++ logs ++ p.1, p.2.2)
          else
            let p := processPositional (snaps.zip response.results)
            ({ st with analysis := applyCaches st.analysis p.2 },
             [.request req] ++ logs ++ p.1, none)

/-- The whole-batch-failure blast radius: one failure publication per document
whose workspace key (recomputed from the snapshot) equals the failed key. -/
def batchFailurePubs (st : ServerStateM) (key : Str) (msg : Str) : List Output :=
  let affected := (st.documents.map Prod.snd).filterMap (fun snap =>
    if snapKey snap snap.uri = key then some snap.uri else none)
  affected.filterMap (fun uri =>
    (alookup st.documents uri).map (fun snap =>
      Output.publish uri [buildAnalysisFailureDiagnostic msg] (some snap.version)))

/-- The body of the spawned debounce task after the sleep: run the batch; on
`Err` publish the blast radius, show and log the error; finally remove the
task's own pending entry. -/
def taskRun (st : ServerStateM) (key : Str)
    (resp : Except Str BatchDependencyAnalysisResponse) :
    ServerStateM × List Output :=
  let r := runBatchCore st key resp
  let st1 := r.1
  match r.2.2 with
  | none => ({ st1 with pending := sremove st1.pending key }, r.2.1)
  | some msg =>
    ({ st1 with pending := sremove st1.pending key },
     r.2.1 ++ batchFailurePubs st1 key msg
       ++ [.showMessage ("Vulnera dependency analysis failed: ".data ++ msg),
           .logMessage ("Dependency analysis failed: ".data ++ msg)])

/-! ### Trace semantics

Events: a document mutation followed by `schedule_analysis` (the tail of
`did_open`/`did_change`/`did_save`-with-text, with the stored snapshot
abstracted as the event payload), a bare `schedule_analysis` (`did_save`
without text), and the expiry of a debounce timer (which only fires while its
token is still the pending one, and here stops at request emission — response
handling is modelled separately by `taskRun`). -/

inductive Event where
  | change (snap : DocumentSnapshot)
  | touch (uri : UrlM)
  | fire (key : Str) (tok : Nat)
deriving DecidableEq, Repr

/-- Timer expiry: fires only if the token is still current; drains, removes
its own pending entry and emits the batch request (if non-empty). -/
def fireTask (st : ServerStateM) (key : Str) (tok : Nat) : ServerStateM × List Output :=
  if slookup st.pending key = some tok then
    let d := drainDirty st key
    let st1 := d.1
    let snaps := collectSnapshots st1 d.2
    let st2 := { st1 with pending := sremove st1.pending key }
    if snaps = [] then (st2, [])
    else (st2, [.request (buildRequest st2.config snaps)])
  else (st, [])

def stepEvent (st : ServerStateM) : Event → ServerStateM × List Output
  | .change snap =>
    scheduleAnalysis { st with documents := ainsert st.documents snap.uri snap } snap.uri
  | .touch uri => scheduleAnalysis st uri
  | .fire key tok => fireTask st key tok

def runEvents (st : ServerStateM) : List Event → ServerStateM × List Output
  | [] => (st, [])
  | e :: rest =>
    let r := stepEvent st e
    let r2 := runEvents r.1 rest
    (r2.1, r.2 ++ r2.2)

/-! ## Concrete inputs for the claims about the locators -/

/-- A cargo manifest whose only version declaration for `serde` is in
inline-table form. -/
def c1Manifest : Str :=
  "[dependencies]\nserde = \x7b version = \"1.0.100\", features = [\"derive\"] \x7d\n".data

def c1Result : FileAnalysisResult :=
  { file_id := none
    ecosystem := "cargo".data
    vulnerabilities :=
      [{ id := "RUSTSEC-2024-0001".data
         summary := "Deserialization flaw".data
         severity := "high".data
         affected_packages :=
           [{ name := "serde".data, version := "1.0.100".data, ecosystem := "cargo".data }] }]
    version_recommendations := none
    metadata := { total_packages := 1, vulnerable_packages := 1, total_vulnerabilities := 1
                  severity_breakdown := ⟨0, 1, 0, 0⟩ }
    error := none }

/-- C1: for a cargo manifest declaring a package's version only in
inline-table form, `build_diagnostics` does not anchor the diagnostic to the
version literal: its private `find_package_range` tries only the plain
`pkg = "ver"` pattern for cargo (no inline-table fallback), so the diagnostic
collapses to the range `[(0,0),(0,0)]` — even though the repository's locator
`find_package_version_range` (the §4.A component, whose cargo arm does try the
inline-table pattern second) locates the version literal `1.0.100` on line 1. -/
theorem c1_build_diagnostics_misses_inline_table :
    findPackageRange c1Manifest "cargo".data "serde".data = none ∧
    findPackageVersionRange c1Manifest "cargo".data "serde".data =
      some ⟨⟨1, 21⟩, ⟨1, 28⟩⟩ ∧
    extractUtf16 c1Manifest ⟨⟨1, 21⟩, ⟨1, 28⟩⟩ = some "1.0.100".data ∧
    (buildDiagnostics c1Result c1Manifest none).map (fun d => d.range) = [defaultRange] := by
  decide

/-- U+1D11E MUSICAL SYMBOL G CLEF: one code point, two UTF-16 units, four
UTF-8 bytes. -/
def c4Pkg : Str := [Char.ofNat 0x1D11E]

/-- A canonical npm manifest whose package name contains a non-BMP character
before the version literal. -/
def c4Manifest : Str :=
  "\x7b\n  \"dependencies\": \x7b\n    \"".data ++ c4Pkg
    ++ "\": \"1.0.0\"\n  \x7d\n\x7d".data

/-- C4: the locator's `offset_to_position` counts code points, not UTF-16
units, per column.  On a canonical npm manifest for the package `𝄞` (version
`1.0.0`) it reports columns 10..15 on line 2, but under the LSP/UTF-16
interpretation the version literal occupies columns 11..16: the substring at
the reported range is not the version string. -/
theorem c4_locator_columns_not_utf16 :
    findPackageVersionRange c4Manifest "npm".data c4Pkg = some ⟨⟨2, 10⟩, ⟨2, 15⟩⟩ ∧
    extractUtf16 c4Manifest ⟨⟨2, 10⟩, ⟨2, 15⟩⟩ ≠ some "1.0.0".data ∧
    extractUtf16 c4Manifest ⟨⟨2, 11⟩, ⟨2, 16⟩⟩ = some "1.0.0".data := by
  decide

deriving instance DecidableEq for Except

/-! ## C2: the `did_change` fallback on failed incremental application -/

def c2Prev : Str := "abc".data

/-- Two change events: first a full-text replacement, then an incremental
change whose start position does not resolve (line 5 of a one-line text). -/
def c2Changes : List ContentChange :=
  [⟨none, "full".data⟩, ⟨some ⟨⟨5, 0⟩, ⟨5, 0⟩⟩, "X".data⟩]

/-- C2, counterexample: application fails on the second event, yet the stored
text becomes `"X"` — the text of the *last* event (which has a range) — not
`"full"`, the text of the last full-text-replacement event, as the claim
requires. -/
theorem c2_fallback_counterexample :
    applyContentChanges c2Prev c2Changes =
      .error ("Invalid start position".data, "full".data) ∧
    didChangeNewText c2Prev c2Changes = "X".data ∧
    (c2Changes.filter (fun c => c.range.isNone)).getLast? = some ⟨none, "full".data⟩ ∧
    ¬ didChangeNewText c2Prev c2Changes = "full".data := by
  decide

theorem applyContentChanges_nil (prev : Str) :
    applyContentChanges prev [] = .ok prev := rfl

/-- C2, amended: when applying the incremental changes fails, the stored text
is the `text` field of the last change event in the list, whether or not that
event is a full-text replacement (failure implies the list is non-empty, so
the leave-unchanged branch never coincides with a failure). -/
theorem c2_failed_apply_stores_last_event_text
    (prev : Str) (changes : List ContentChange) (e : Str × Str)
    (h : applyContentChanges prev changes = .error e) :
    ∃ c, changes.getLast? = some c ∧ didChangeNewText prev changes = c.text := by
  cases hl : changes.getLast? with
  | none =>
    rw [List.getLast?_eq_none_iff] at hl
    rw [hl, applyContentChanges_nil] at h
    exact absurd h (by simp)
  | some c =>
    refine ⟨c, rfl, ?_⟩
    rw [didChangeNewText, h, hl]

/-- C2 witness: the amended statement at the counterexample input. -/
theorem c2_failed_apply_stores_last_event_text_witness :
    ∃ c, c2Changes.getLast? = some c ∧ didChangeNewText c2Prev c2Changes = c.text :=
  c2_failed_apply_stores_last_event_text c2Prev c2Changes
    ("Invalid start position".data, "full".data) (by decide)

/-! ## C3: demultiplexing decision of `run_batch_analysis` -/

def isPublish : Output → Bool
  | .publish _ _ _ => true
  | _ => false

def c3Snap : DocumentSnapshot :=
  { uri := ⟨"file:///w/package.json".data, "/w/package.json".data⟩
    text := "\x7b\x7d".data
    version := 3
    language_id := some "json".data
    file_name := some "package.json".data
    workspace_path := some "/w/package.json".data
    ecosystem := "npm".data }

/-- A per-file result carrying the *empty string* as its `file_id`. -/
def c3FileResult : FileAnalysisResult :=
  { file_id := some []
    ecosystem := "npm".data
    vulnerabilities := []
    version_recommendations := none
    metadata := { total_packages := 0, vulnerable_packages := 0, total_vulnerabilities := 0
                  severity_breakdown := ⟨0, 0, 0, 0⟩ }
    error := none }

def c3Response : BatchDependencyAnalysisResponse :=
  { results := [c3FileResult]
    metadata := { request_id := none, total_files := 1, successful := 1, failed := 0
                  total_vulnerabilities := 0 } }

def c3State : ServerStateM :=
  { documents := [(c3Snap.uri, c3Snap)]
    analysis := []
    pending := [("/w".data, 0)]
    dirty_by_workspace := [("/w".data, [c3Snap.uri])]
    nextToken := 1
    config := ⟨true, false⟩ }

/-- C3, counterexample: a count-matching response in which the single result
carries the empty string as its `file_id`.  The code's guard checks only
`is_some`, so it takes the `file_id`-lookup path, finds no snapshot under the
empty key, and fails the whole batch with an unknown-`file_id` error — no
positional pairing happens (no per-file publication at all), contradicting the
claim that an empty `file_id` triggers positional pairing without failing the
batch. -/
theorem c3_empty_file_id_counterexample :
    c3Response.results.all (fun r => r.file_id.isSome) = true ∧
    c3FileResult.file_id = some [] ∧
    (runBatchCore c3State "/w".data (.ok c3Response)).2.2 =
      some "Unknown file_id returned by analysis service: ".data ∧
    (runBatchCore c3State "/w".data (.ok c3Response)).2.1.filter isPublish = [] := by
  decide

theorem processWithIds_unknown_id_isSome
    (byId : List (Str × DocumentSnapshot)) (results : List FileAnalysisResult)
    (h : ∃ r ∈ results, ∃ fid, r.file_id = some fid ∧ slookup byId fid = none) :
    (processWithIds byId results).2.2.isSome = true := by
  induction results with
  | nil => simp at h
  | cons r rest ih =>
    obtain ⟨r', hmem, fid, hfid, hlook⟩ := h
    rcases List.mem_cons.mp hmem with heq | htail
    · subst heq
      simp only [processWithIds, hfid, hlook, Option.isSome_some]
    · cases hr : r.file_id with
      | none => simp only [processWithIds, hr, Option.isSome_some]
      | some fid0 =>
        cases hl : slookup byId fid0 with
        | none => simp only [processWithIds, hr, hl, Option.isSome_some]
        | some snap =>
          simp only [processWithIds, hr, hl]
          exact ih ⟨r', htail, fid, hfid, hlook⟩

/-- C3, amended: demultiplexing is by `file_id` lookup exactly when every
result's `file_id` is *present* (`Some`, the empty string included); only an
*absent* `file_id` triggers positional pairing; and a present `file_id` that
matches no request file — the empty string in particular, since request
file ids are URI serialisations — is a whole-batch failure, not a fallback. -/
theorem c3_demux_by_presence (st : ServerStateM) (key : Str)
    (response : BatchDependencyAnalysisResponse)
    (h1 : ¬ (drainDirty st key).2 = [])
    (h2 : ¬ collectSnapshots (drainDirty st key).1 (drainDirty st key).2 = [])
    (h3 : response.results.length =
      (collectSnapshots (drainDirty st key).1 (drainDirty st key).2).length) :
    (response.results.all (fun r => r.file_id.isSome) = true →
      runBatchCore st key (.ok response) =
        ({ (drainDirty st key).1 with
            analysis := applyCaches (drainDirty st key).1.analysis
              (processWithIds
                (mkByFileId (collectSnapshots (drainDirty st key).1 (drainDirty st key).2))
                response.results).2.1 },
         [.request (buildRequest (drainDirty st key).1.config
            (collectSnapshots (drainDirty st key).1 (drainDirty st key).2))]
           ++ (match response.metadata.request_id with
               | some rid =>
                 [.logMessage ("Vulnera dependency batch request_id=".data ++ rid)]
               | none => [])
           ++ (processWithIds
                (mkByFileId (collectSnapshots (drainDirty st key).1 (drainDirty st key).2))
                response.results).1,
         (processWithIds
            (mkByFileId (collectSnapshots (drainDirty st key).1 (drainDirty st key).2))
            response.results).2.2)) ∧
    ((∃ r ∈ response.results, r.file_id = none) →
      runBatchCore st key (.ok response) =
        ({ (drainDirty st key).1 with
            analysis := applyCaches (drainDirty st key).1.analysis
              (processPositional
                ((collectSnapshots (drainDirty st key).1 (drainDirty st key).2).zip
                  response.results)).2 },
         [.request (buildRequest (drainDirty st key).1.config
            (collectSnapshots (drainDirty st key).1 (drainDirty st key).2))]
           ++ (match response.metadata.request_id with
               | some rid =>
                 [.logMessage ("Vulnera dependency batch request_id=".data ++ rid)]
               | none => [])
           ++ (processPositional
                ((collectSnapshots (drainDirty st key).1 (drainDirty st key).2).zip
                  response.results)).1,
         none)) ∧
    (response.results.all (fun r => r.file_id.isSome) = true →
      (∃ r ∈ response.results, ∃ fid, r.file_id = some fid ∧
        slookup (mkByFileId
          (collectSnapshots (drainDirty st key).1 (drainDirty st key).2)) fid = none) →
      (runBatchCore st key (.ok response)).2.2.isSome = true) := by
  have hlen : (!(response.results.length =
      (collectSnapshots (drainDirty st key).1 (drainDirty st key).2).length : Bool)) = false := by
    simp [h3]
  refine ⟨?_, ?_, ?_⟩
  · intro hall
    simp only [runBatchCore, if_neg h1, if_neg h2, hlen, Bool.false_eq_true, if_false, hall,
      if_true]
  · intro hnone
    have hall : response.results.all (fun r => r.file_id.isSome) = false := by
      obtain ⟨r, hmem, hr⟩ := hnone
      rcases hba : response.results.all (fun r => r.file_id.isSome) with _ | _
      · rfl
      · have := List.all_eq_true.mp hba r hmem
        rw [hr] at this
        simp at this
    simp only [runBatchCore, if_neg h1, if_neg h2, hlen, Bool.false_eq_true, if_false, hall]
  · intro hall hex
    simp only [runBatchCore, if_neg h1, if_neg h2, hlen, Bool.false_eq_true, if_false, hall,
      if_true]
    exact processWithIds_unknown_id_isSome _ _ hex

/-- C3 witness: the amended statement applied at the concrete batch whose
single result carries the empty-string `file_id`. -/
theorem c3_demux_by_presence_witness :
    (runBatchCore c3State "/w".data (.ok c3Response)).2.2.isSome = true :=
  (c3_demux_by_presence c3State "/w".data c3Response (by decide) (by decide)
      (by decide)).2.2 (by decide)
    ⟨c3FileResult, by decide, [], by decide, by decide⟩

/-! ## C10: `build_diagnostics` is never empty -/

/-- Helper: the per-package diagnostic list of `build_diagnostics`. -/
def perPackageDiagnostics (result : FileAnalysisResult) (documentText : Str)
    (languageId : Option Str) : List DiagnosticM :=
  result.vulnerabilities.flatMap (fun vuln =>
    vuln.affected_packages.map (fun affected => show DiagnosticM from
      { range := (findPackageRange documentText result.ecosystem affected.name).getD
          defaultRange
        severity := some (mapSeverity vuln.severity)
        source := some "vulnera".data
        message := vuln.summary ++ ": ".data ++ affected.name ++ " (".data
          ++ affected.version ++ " ".data ++ vuln.id ++ ")".data
          ++ langSuffix languageId }))

theorem buildDiagnostics_eq (result : FileAnalysisResult) (documentText : Str)
    (languageId : Option Str) :
    buildDiagnostics result documentText languageId =
      if perPackageDiagnostics result documentText languageId = [] then
        [infoDiagnostic documentText result languageId]
      else perPackageDiagnostics result documentText languageId := rfl

/-- C10: `build_diagnostics` always returns a non-empty list; whenever no
per-package diagnostic is produced — in particular whenever every
vulnerability's `affected_packages` list is empty, even with a non-empty
vulnerability list — the result is exactly the single Hint-severity
"Dependency scan complete" diagnostic, whose reported count is
`metadata.total_vulnerabilities` (and may therefore be non-zero). -/
theorem c10_build_diagnostics_nonempty (result : FileAnalysisResult)
    (documentText : Str) (languageId : Option Str) :
    buildDiagnostics result documentText languageId ≠ [] ∧
    ((∀ v ∈ result.vulnerabilities, v.affected_packages = []) →
      buildDiagnostics result documentText languageId =
        [infoDiagnostic documentText result languageId]) ∧
    (infoDiagnostic documentText result languageId).severity = some .hint ∧
    (infoDiagnostic documentText result languageId).message =
      "Dependency scan complete: ".data ++ natStr result.metadata.total_vulnerabilities
        ++ " vulnerabilities".data ++ langSuffix languageId := by
  refine ⟨?_, ?_, rfl, rfl⟩
  · rw [buildDiagnostics_eq]
    by_cases h : perPackageDiagnostics result documentText languageId = []
    · simp [h]
    · simp [h]
  · intro hall
    have hempty : perPackageDiagnostics result documentText languageId = [] := by
      rw [perPackageDiagnostics, List.flatMap_eq_nil_iff]
      intro v hv
      rw [hall v hv]
      rfl
    rw [buildDiagnostics_eq, if_pos hempty]

def c10Result : FileAnalysisResult :=
  { file_id := none
    ecosystem := "npm".data
    vulnerabilities :=
      [{ id := "GHSA-xxxx".data
         summary := "Prototype pollution".data
         severity := "high".data
         affected_packages := [] }]
    version_recommendations := none
    metadata := { total_packages := 4, vulnerable_packages := 0, total_vulnerabilities := 2
                  severity_breakdown := ⟨0, 2, 0, 0⟩ }
    error := none }

/-- C10 witness: a result listing one vulnerability with no affected packages
and a non-zero `total_vulnerabilities` yields exactly the info diagnostic. -/
theorem c10_build_diagnostics_nonempty_witness :
    buildDiagnostics c10Result [] none ≠ [] ∧
    buildDiagnostics c10Result [] none = [infoDiagnostic [] c10Result none] :=
  ⟨(c10_build_diagnostics_nonempty c10Result [] none).1,
   (c10_build_diagnostics_nonempty c10Result [] none).2.1 (by decide)⟩

/-! ## C8: shape of `build_code_actions`

`claimAction`/`strategySlots` follow the claim's words (one action per
populated strategy field, fixed order, preferred iff nearest) so that the
source's loop can be proved equal to them. -/

def claimAction (uri : UrlM) (ecosystem documentText : Str) (languageId : Option Str)
    (rec : VersionRecommendationDto) (strategy arrow v : Str) : CodeActionM :=
  let title := rec.ecosystem ++ ": ".data ++ rec.package ++ langSuffixBracket languageId
    ++ arrow ++ v
  match findVersionEdit ecosystem rec.package v documentText with
  | some e => makeEditAction title uri e (decide (strategy = "nearest_safe_above_current".data))
  | none => makeCommandAction title rec strategy languageId

/-- The three strategy fields in the claim's fixed order, with their strategy
identifiers and title labels. -/
def strategySlots (rec : VersionRecommendationDto) : List (Option Str × Str × Str) :=
  [(rec.nearest_safe_above_current, "nearest_safe_above_current".data,
    " -> nearest safe ".data),
   (rec.most_up_to_date_safe, "most_up_to_date_safe".data, " -> latest safe ".data),
   (rec.next_safe_minor_within_current_major,
    "next_safe_minor_within_current_major".data, " -> next safe minor ".data)]

def claimActionsForRec (uri : UrlM) (ecosystem documentText : Str)
    (languageId : Option Str) (rec : VersionRecommendationDto) : List CodeActionM :=
  (strategySlots rec).flatMap (fun slot =>
    match slot.1 with
    | none => []
    | some v => [claimAction uri ecosystem documentText languageId rec slot.2.1 slot.2.2 v])

/-- Number of populated strategy fields of a recommendation. -/
def popCount (rec : VersionRecommendationDto) : Nat :=
  (strategySlots rec).countP (fun s => s.1.isSome)

theorem claimActionsForRec_eq_blocks (uri : UrlM) (ecosystem documentText : Str)
    (languageId : Option Str) (rec : VersionRecommendationDto) :
    claimActionsForRec uri ecosystem documentText languageId rec =
      (let titlePre := rec.ecosystem ++ ": ".data ++ rec.package
        ++ langSuffixBracket languageId
      (match rec.nearest_safe_above_current with
       | none => []
       | some v =>
         [match findVersionEdit ecosystem rec.package v documentText with
          | some e => makeEditAction (titlePre ++ " -> nearest safe ".data ++ v) uri e true
          | none => makeCommandAction (titlePre ++ " -> nearest safe ".data ++ v) rec
              "nearest_safe_above_current".data languageId])
      ++ (match rec.most_up_to_date_safe with
       | none => []
       | some v =>
         [match findVersionEdit ecosystem rec.package v documentText with
          | some e => makeEditAction (titlePre ++ " -> latest safe ".data ++ v) uri e false
          | none => makeCommandAction (titlePre ++ " -> latest safe ".data ++ v) rec
              "most_up_to_date_safe".data languageId])
      ++ (match rec.next_safe_minor_within_current_major with
       | none => []
       | some v =>
         [match findVersionEdit ecosystem rec.package v documentText with
          | some e => makeEditAction (titlePre ++ " -> next safe minor ".data ++ v) uri e false
          | none => makeCommandAction (titlePre ++ " -> next safe minor ".data ++ v) rec
              "next_safe_minor_within_current_major".data languageId])) := by
  cases hn : rec.nearest_safe_above_current with
  | none =>
    cases hm : rec.most_up_to_date_safe with
    | none =>
      cases hx : rec.next_safe_minor_within_current_major with
      | none => simp +decide [claimActionsForRec, strategySlots, claimAction, hn, hm, hx]
      | some v => simp +decide [claimActionsForRec, strategySlots, claimAction, hn, hm, hx]
    | some v =>
      cases hx : rec.next_safe_minor_within_current_major with
      | none => simp +decide [claimActionsForRec, strategySlots, claimAction, hn, hm, hx]
      | some w => simp +decide [claimActionsForRec, strategySlots, claimAction, hn, hm, hx]
  | some u =>
    cases hm : rec.most_up_to_date_safe with
    | none =>
      cases hx : rec.next_safe_minor_within_current_major with
      | none => simp +decide [claimActionsForRec, strategySlots, claimAction, hn, hm, hx]
      | some v => simp +decide [claimActionsForRec, strategySlots, claimAction, hn, hm, hx]
    | some v =>
      cases hx : rec.next_safe_minor_within_current_major with
      | none => simp +decide [claimActionsForRec, strategySlots, claimAction, hn, hm, hx]
      | some w => simp +decide [claimActionsForRec, strategySlots, claimAction, hn, hm, hx]

/-- C8: `build_code_actions` emits, per recommendation, one action per
populated strategy field (hence at most three) in the fixed order
nearest/most-up-to-date/next-safe-minor; every action (edit- or
command-style) has `isPreferred = true` iff its strategy is
`nearest_safe_above_current`; and every edit-style action replaces the
located range with the recommended version string (degrading to a
command-style action when the locator fails). -/
theorem c8_build_code_actions_shape (uri : UrlM) (ecosystem documentText : Str)
    (recommendations : List VersionRecommendationDto) (languageId : Option Str) :
    buildCodeActions uri ecosystem documentText recommendations languageId =
      recommendations.flatMap
        (claimActionsForRec uri ecosystem documentText languageId) ∧
    (∀ rec, (claimActionsForRec uri ecosystem documentText languageId rec).length
        = popCount rec ∧ popCount rec ≤ 3) ∧
    (∀ rec strategy arrow v,
      (claimAction uri ecosystem documentText languageId rec strategy arrow v).isPreferred
        = some (decide (strategy = "nearest_safe_above_current".data)) ∧
      (∀ r cap, findVersionRange ecosystem rec.package documentText = some (r, cap) →
        (claimAction uri ecosystem documentText languageId rec strategy arrow v).edit
            = some ⟨some [(uri, [⟨r, v⟩])]⟩ ∧
          (claimAction uri ecosystem documentText languageId rec strategy arrow v).command
            = none) ∧
      (findVersionRange ecosystem rec.package documentText = none →
        (claimAction uri ecosystem documentText languageId rec strategy arrow v).edit
            = none ∧
          ((claimAction uri ecosystem documentText languageId rec strategy arrow
            v).command).isSome = true)) := by
  refine ⟨?_, ?_, ?_⟩
  · show List.flatMap _ _ = _
    refine congrArg _ (funext fun rec => ?_)
    exact (claimActionsForRec_eq_blocks uri ecosystem documentText languageId rec).symm
  · intro rec
    cases hn : rec.nearest_safe_above_current <;>
      cases hm : rec.most_up_to_date_safe <;>
        cases hx : rec.next_safe_minor_within_current_major <;>
          simp [claimActionsForRec, strategySlots, popCount, hn, hm, hx]
  · intro rec strategy arrow v
    refine ⟨?_, ?_, ?_⟩
    · cases hfe : findVersionEdit ecosystem rec.package v documentText with
      | none => simp [claimAction, hfe, makeCommandAction]
      | some e => simp [claimAction, hfe, makeEditAction]
    · intro r cap hfr
      have hfe : findVersionEdit ecosystem rec.package v documentText = some ⟨r, v⟩ := by
        rw [findVersionEdit, hfr]
        rfl
      constructor
      · simp [claimAction, hfe, makeEditAction]
      · simp [claimAction, hfe, makeEditAction]
    · intro hfr
      have hfe : findVersionEdit ecosystem rec.package v documentText = none := by
        rw [findVersionEdit, hfr]
        rfl
      constructor
      · simp [claimAction, hfe, makeCommandAction]
      · simp [claimAction, hfe, makeCommandAction]

def c8Uri : UrlM := ⟨"file:///w/package.json".data, "/w/package.json".data⟩

def c8Text : Str :=
  "\x7b\n  \"dependencies\": \x7b\n    \"lodash\": \"4.17.20\"\n  \x7d\n\x7d".data

def c8Rec : VersionRecommendationDto :=
  { package := "lodash".data
    ecosystem := "npm".data
    current_version := some "4.17.20".data
    nearest_safe_above_current := some "4.17.21".data
    most_up_to_date_safe := none
    next_safe_minor_within_current_major := none }

/-- C8 witness: the edit-style branch at a concrete located range (lodash in
a canonical npm manifest), discharging the locator hypothesis. -/
theorem c8_build_code_actions_shape_witness :
    (claimAction c8Uri "npm".data c8Text none c8Rec "nearest_safe_above_current".data
        " -> nearest safe ".data "4.17.21".data).edit =
      some ⟨some [(c8Uri, [⟨⟨⟨2, 15⟩, ⟨2, 22⟩⟩, "4.17.21".data⟩])]⟩ ∧
    (claimAction c8Uri "npm".data c8Text none c8Rec "nearest_safe_above_current".data
        " -> nearest safe ".data "4.17.21".data).command = none :=
  ((c8_build_code_actions_shape c8Uri "npm".data c8Text [c8Rec] none).2.2 c8Rec
      "nearest_safe_above_current".data " -> nearest safe ".data "4.17.21".data).2.1
    ⟨⟨2, 15⟩, ⟨2, 22⟩⟩ "4.17.20".data (by decide)

/-! ## Map lemmas and well-formedness -/

theorem alookup_mem {β : Type} {l : List (UrlM × β)} {u : UrlM} {v : β}
    (h : alookup l u = some v) : (u, v) ∈ l := by
  induction l with
  | nil => simp [alookup] at h
  | cons p rest ih =>
    obtain ⟨k, w⟩ := p
    by_cases hk : k = u
    · subst hk
      rw [alookup, if_pos rfl] at h
      obtain rfl := Option.some_injective _ h
      exact List.mem_cons_self _ _
    · rw [alookup, if_neg hk] at h
      exact List.mem_cons_of_mem _ (ih h)

theorem alookup_snd_mem {β : Type} {l : List (UrlM × β)} {u : UrlM} {v : β}
    (h : alookup l u = some v) : v ∈ l.map Prod.snd :=
  List.mem_map.mpr ⟨(u, v), alookup_mem h, rfl⟩

theorem slookup_mem {β : Type} {l : List (Str × β)} {a : Str} {v : β}
    (h : slookup l a = some v) : (a, v) ∈ l := by
  induction l with
  | nil => simp [slookup] at h
  | cons p rest ih =>
    obtain ⟨k, w⟩ := p
    by_cases hk : k = a
    · subst hk
      rw [slookup, if_pos rfl] at h
      obtain rfl := Option.some_injective _ h
      exact List.mem_cons_self _ _
    · rw [slookup, if_neg hk] at h
      exact List.mem_cons_of_mem _ (ih h)

theorem sremove_snd_sub {β : Type} {l : List (Str × β)} {a : Str} {v : β}
    (h : v ∈ (sremove l a).map Prod.snd) : v ∈ l.map Prod.snd := by
  induction l with
  | nil => simp [sremove] at h
  | cons p rest ih =>
    obtain ⟨k, w⟩ := p
    by_cases hk : k = a
    · rw [sremove, if_pos hk] at h
      exact List.mem_cons_of_mem _ (ih h)
    · rw [sremove, if_neg hk] at h
      rcases List.mem_cons.mp h with hv | hv
      · exact hv ▸ List.mem_cons_self _ _
      · exact List.mem_cons_of_mem _ (ih hv)

theorem foldl_sinsert_snd_sub (snaps : List DocumentSnapshot) :
    ∀ (acc : List (Str × DocumentSnapshot)) (v : DocumentSnapshot),
      v ∈ (snaps.foldl (fun m snap => sinsert m snap.uri.full snap) acc).map Prod.snd →
      v ∈ acc.map Prod.snd ∨ v ∈ snaps := by
  induction snaps with
  | nil =>
    intro acc v h
    rw [List.foldl_nil] at h
    exact Or.inl h
  | cons s rest ih =>
    intro acc v h
    rw [List.foldl_cons] at h
    rcases ih (sinsert acc s.uri.full s) v h with hmem | hmem
    · rw [sinsert, List.map_cons] at hmem
      rcases List.mem_cons.mp hmem with hv | hv
      · exact Or.inr (List.mem_cons.mpr (Or.inl hv))
      · exact Or.inl (sremove_snd_sub hv)
    · exact Or.inr (List.mem_cons_of_mem _ hmem)

theorem mkByFileId_snd_sub {snaps : List DocumentSnapshot} {v : DocumentSnapshot}
    (h : v ∈ (mkByFileId snaps).map Prod.snd) : v ∈ snaps := by
  rcases foldl_sinsert_snd_sub snaps [] v h with hacc | hs
  · simp at hacc
  · exact hs

theorem collectSnapshots_mem {st : ServerStateM} {uris : List UrlM}
    {snap : DocumentSnapshot} (h : snap ∈ collectSnapshots st uris) :
    ∃ u ∈ uris, alookup st.documents u = some snap := by
  rw [collectSnapshots] at h
  exact List.mem_filterMap.mp (List.mem_filter.mp h).1

theorem collectSnapshots_snd_sub {st : ServerStateM} {uris : List UrlM}
    {snap : DocumentSnapshot} (h : snap ∈ collectSnapshots st uris) :
    snap ∈ st.documents.map Prod.snd := by
  obtain ⟨u, _, hu⟩ := collectSnapshots_mem h
  exact alookup_snd_mem hu

theorem drainDirty_documents (st : ServerStateM) (key : Str) :
    (drainDirty st key).1.documents = st.documents := by
  rw [drainDirty]
  cases slookup st.dirty_by_workspace key <;> rfl

theorem drainDirty_config (st : ServerStateM) (key : Str) :
    (drainDirty st key).1.config = st.config := by
  rw [drainDirty]
  cases slookup st.dirty_by_workspace key <;> rfl

theorem runBatchCore_documents (st : ServerStateM) (key : Str)
    (resp : Except Str BatchDependencyAnalysisResponse) :
    (runBatchCore st key resp).1.documents = st.documents := by
  have hd := drainDirty_documents st key
  rw [runBatchCore]
  repeat' (first | split | dsimp only)
  all_goals simpa using hd

/-- Documents-map well-formedness: every entry's snapshot records the key URI
(maintained by `upsert_document`, which stores each snapshot under its own
URI). -/
abbrev DocsWf (st : ServerStateM) : Prop := ∀ p ∈ st.documents, (p.2).uri = p.1

/-- A publication carrying exactly the version of the snapshot it was
produced from, with diagnostics built from that same snapshot's text (or a
batch-failure diagnostic). -/
def VersionedPub (snap : DocumentSnapshot) (o : Output) : Prop :=
  ∃ ds, o = .publish snap.uri ds (some snap.version) ∧
    ((∃ e, ds = [buildAnalysisFailureDiagnostic e]) ∨
     ∃ r, ds = buildDiagnostics r snap.text snap.language_id)

theorem resultStep_versioned (snap : DocumentSnapshot) (result : FileAnalysisResult) :
    VersionedPub snap (resultStep snap result).1 := by
  rw [resultStep]
  cases h : result.error with
  | some err => exact ⟨_, rfl, Or.inl ⟨err, rfl⟩⟩
  | none => exact ⟨_, rfl, Or.inr ⟨result, rfl⟩⟩

theorem processWithIds_pubs {byId : List (Str × DocumentSnapshot)}
    {results : List FileAnalysisResult} {o : Output}
    (ho : o ∈ (processWithIds byId results).1) :
    ∃ snap, snap ∈ byId.map Prod.snd ∧ VersionedPub snap o := by
  induction results with
  | nil => simp [processWithIds] at ho
  | cons r rest ih =>
    cases hr : r.file_id with
    | none =>
      simp only [processWithIds, hr] at ho
      simp at ho
    | some fid =>
      cases hl : slookup byId fid with
      | none =>
        simp only [processWithIds, hr, hl] at ho
        simp at ho
      | some snap =>
        simp only [processWithIds, hr, hl, List.mem_cons] at ho
        rcases ho with rfl | htail
        · refine ⟨snap, ?_, resultStep_versioned snap r⟩
          exact List.mem_map.mpr ⟨(fid, snap), slookup_mem hl, rfl⟩
        · exact ih htail

theorem processPositional_pubs
    {pairs : List (DocumentSnapshot × FileAnalysisResult)} {o : Output}
    (ho : o ∈ (processPositional pairs).1) :
    ∃ p ∈ pairs, VersionedPub p.1 o := by
  induction pairs with
  | nil => simp [processPositional] at ho
  | cons p rest ih =>
    rw [processPositional] at ho
    rcases List.mem_cons.mp ho with rfl | htail
    · exact ⟨p, List.mem_cons_self _ _, resultStep_versioned p.1 p.2⟩
    · obtain ⟨q, hq, hvp⟩ := ih htail
      exact ⟨q, List.mem_cons_of_mem _ hq, hvp⟩

theorem batchFailurePubs_mem {st : ServerStateM} {key msg : Str} {o : Output}
    (ho : o ∈ batchFailurePubs st key msg) :
    ∃ u snap, alookup st.documents u = some snap ∧
      o = .publish u [buildAnalysisFailureDiagnostic msg] (some snap.version) := by
  rw [batchFailurePubs] at ho
  obtain ⟨u, _, hu⟩ := List.mem_filterMap.mp ho
  obtain ⟨snap, hsnap, heq⟩ := Option.map_eq_some'.mp hu
  exact ⟨u, snap, hsnap, heq.symm⟩

theorem mem_requestIdLogs {x : Option Str} {o : Output}
    (ho : o ∈ (match x with
      | some rid => [Output.logMessage ("Vulnera dependency batch request_id=".data ++ rid)]
      | none => ([] : List Output))) :
    ∃ rid, o = .logMessage ("Vulnera dependency batch request_id=".data ++ rid) := by
  cases x with
  | none => simp at ho
  | some rid => exact ⟨rid, by simpa using ho⟩

theorem runBatchCore_pubs (st : ServerStateM) (key : Str)
    (resp : Except Str BatchDependencyAnalysisResponse) {o : Output}
    (ho : o ∈ (runBatchCore st key resp).2.1) (hpub : isPublish o = true) :
    ∃ snap, snap ∈ st.documents.map Prod.snd ∧ VersionedPub snap o := by
  have hdocs := drainDirty_documents st key
  rw [runBatchCore] at ho
  dsimp only at ho
  split at ho
  · simp at ho
  · split at ho
    · simp at ho
    · split at ho
      · -- transport error: the only output is the request
        simp only [List.mem_singleton] at ho
        rw [ho] at hpub
        simp [isPublish] at hpub
      · split at ho
        · -- cardinality mismatch: request plus optional log
          rw [List.mem_append] at ho
          rcases ho with ho | ho
          · rw [List.mem_singleton] at ho
            rw [ho] at hpub
            simp [isPublish] at hpub
          · obtain ⟨rid, rfl⟩ := mem_requestIdLogs ho
            simp [isPublish] at hpub
        · split at ho
          · -- file_id demultiplexing
            simp only [List.mem_append] at ho
            rcases ho with (ho | ho) | ho
            · rw [List.mem_singleton] at ho
              rw [ho] at hpub
              simp [isPublish] at hpub
            · obtain ⟨rid, rfl⟩ := mem_requestIdLogs ho
              simp [isPublish] at hpub
            · obtain ⟨snap, hsnap, hvp⟩ := processWithIds_pubs ho
              refine ⟨snap, ?_, hvp⟩
              rw [← hdocs]
              exact collectSnapshots_snd_sub (mkByFileId_snd_sub hsnap)
          · -- positional demultiplexing
            simp only [List.mem_append] at ho
            rcases ho with (ho | ho) | ho
            · rw [List.mem_singleton] at ho
              rw [ho] at hpub
              simp [isPublish] at hpub
            · obtain ⟨rid, rfl⟩ := mem_requestIdLogs ho
              simp [isPublish] at hpub
            · obtain ⟨p, hp, hvp⟩ := processPositional_pubs ho
              refine ⟨p.1, ?_, hvp⟩
              rw [← hdocs]
              exact collectSnapshots_snd_sub (List.of_mem_zip hp).1

/-- C6: every diagnostics publication produced by batch analysis — success
diagnostics, per-file failure diagnostics, and whole-batch failure
diagnostics — carries exactly the `version` of the document snapshot from
which it was produced (its diagnostics are moreover either a failure
diagnostic or built from that same snapshot's text and language id). -/
theorem c6_publications_carry_snapshot_version (st : ServerStateM) (key : Str)
    (resp : Except Str BatchDependencyAnalysisResponse) (hwf : DocsWf st)
    {o : Output} (ho : o ∈ (taskRun st key resp).2) (hpub : isPublish o = true) :
    ∃ snap, snap ∈ st.documents.map Prod.snd ∧ VersionedPub snap o := by
  rw [taskRun] at ho
  dsimp only at ho
  split at ho
  · exact runBatchCore_pubs st key resp ho hpub
  · rename_i x msg heq
    simp only [List.mem_append] at ho
    rcases ho with (ho | ho) | ho
    · exact runBatchCore_pubs st key resp ho hpub
    · obtain ⟨u, snap, hlook, rfl⟩ := batchFailurePubs_mem ho
      rw [runBatchCore_documents st key resp] at hlook
      have huri : snap.uri = u := hwf (u, snap) (alookup_mem hlook)
      refine ⟨snap, alookup_snd_mem hlook,
        [buildAnalysisFailureDiagnostic msg], ?_, Or.inl ⟨msg, rfl⟩⟩
      rw [huri]
    · rcases List.mem_cons.mp ho with rfl | ho
      · simp [isPublish] at hpub
      · rw [List.mem_singleton] at ho
        rw [ho] at hpub
        simp [isPublish] at hpub

def c6Snap : DocumentSnapshot :=
  { uri := ⟨"file:///w/Cargo.toml".data, "/w/Cargo.toml".data⟩
    text := "[dependencies]\n".data
    version := 7
    language_id := some "toml".data
    file_name := some "Cargo.toml".data
    workspace_path := some "/w/Cargo.toml".data
    ecosystem := "cargo".data }

def c6State : ServerStateM :=
  { documents := [(c6Snap.uri, c6Snap)]
    analysis := []
    pending := [("/w".data, 0)]
    dirty_by_workspace := [("/w".data, [c6Snap.uri])]
    nextToken := 1
    config := ⟨true, false⟩ }

/-- C6 witness: the whole-batch-failure publication for the stored document
carries the stored snapshot's version. -/
theorem c6_publications_carry_snapshot_version_witness :
    ∃ snap, snap ∈ c6State.documents.map Prod.snd ∧
      VersionedPub snap (.publish c6Snap.uri
        [buildAnalysisFailureDiagnostic "boom".data] (some 7)) :=
  c6_publications_carry_snapshot_version c6State "/w".data (.error "boom".data)
    (by decide) (by decide) (by decide)

/-! ## C7: whole-batch failure blast radius -/

def isPubFor (u : UrlM) : Output → Bool
  | .publish v _ _ => v = u
  | _ => false

def isShow : Output → Bool
  | .showMessage _ => true
  | _ => false

theorem alookup_of_mem_nodup {β : Type} {l : List (UrlM × β)} {u : UrlM} {v : β}
    (hmem : (u, v) ∈ l) (hnd : (l.map Prod.fst).Nodup) : alookup l u = some v := by
  induction l with
  | nil => simp at hmem
  | cons p rest ih =>
    obtain ⟨k, w⟩ := p
    rw [List.map_cons, List.nodup_cons] at hnd
    rcases List.mem_cons.mp hmem with heq | htail
    · injection heq with h1 h2
      subst h1
      subst h2
      rw [alookup, if_pos rfl]
    · by_cases hk : k = u
      · subst hk
        exact absurd (List.mem_map.mpr ⟨(k, v), htail, rfl⟩) hnd.1
      · rw [alookup, if_neg hk]
        exact ih htail hnd.2

theorem filterMap_congr_mem {α β : Type} {l : List α} {f g : α → Option β}
    (h : ∀ x ∈ l, f x = g x) : l.filterMap f = l.filterMap g := by
  induction l with
  | nil => rfl
  | cons a rest ih =>
    rw [List.filterMap_cons, List.filterMap_cons, h a (List.mem_cons_self _ _),
      ih fun x hx => h x (List.mem_cons_of_mem _ hx)]

/-- The publication each document with the failed workspace key receives. -/
def failPubOf (key msg : Str) (p : UrlM × DocumentSnapshot) : Option Output :=
  if snapKey p.2 p.1 = key then
    some (.publish p.1 [buildAnalysisFailureDiagnostic msg] (some p.2.version))
  else none

theorem batchFailurePubs_eq {st : ServerStateM} {key msg : Str} (hwf : DocsWf st)
    (hnd : (st.documents.map Prod.fst).Nodup) :
    batchFailurePubs st key msg = st.documents.filterMap (failPubOf key msg) := by
  rw [batchFailurePubs, List.filterMap_map, List.filterMap_filterMap]
  refine filterMap_congr_mem fun p hp => ?_
  have huri : (p.2).uri = p.1 := hwf p hp
  have hlook : alookup st.documents p.1 = some p.2 :=
    alookup_of_mem_nodup (by simpa using hp) hnd
  simp only [Function.comp_apply, failPubOf, huri]
  by_cases hkey : snapKey p.2 p.1 = key
  · rw [if_pos hkey, if_pos hkey, Option.some_bind, hlook]
    rfl
  · rw [if_neg hkey, if_neg hkey]
    rfl

theorem filter_isPubFor_failPubOf_not_mem {key msg : Str} {u : UrlM}
    {l : List (UrlM × DocumentSnapshot)} (hu : u ∉ l.map Prod.fst) :
    (l.filterMap (failPubOf key msg)).filter (isPubFor u) = [] := by
  induction l with
  | nil => rfl
  | cons p rest ih =>
    have hne : ¬ p.1 = u := by
      intro h
      exact hu (List.mem_map.mpr ⟨p, List.mem_cons_self _ _, h⟩)
    have hrest : u ∉ rest.map Prod.fst := fun h => hu (List.mem_cons_of_mem _ h)
    rw [List.filterMap_cons]
    cases hf : failPubOf key msg p with
    | none => exact ih hrest
    | some o =>
      rw [failPubOf] at hf
      split at hf
      · obtain rfl := Option.some_injective _ hf
        rw [List.filter_cons]
        simp only [isPubFor, decide_eq_true_eq]
        rw [if_neg (by simpa using hne)]
        exact ih hrest
      · exact absurd hf (by simp)

theorem filter_isPubFor_failPubOf {key msg : Str} {u : UrlM} {snap : DocumentSnapshot}
    {l : List (UrlM × DocumentSnapshot)} (hnd : (l.map Prod.fst).Nodup)
    (hlook : alookup l u = some snap) (hkey : snapKey snap u = key) :
    (l.filterMap (failPubOf key msg)).filter (isPubFor u) =
      [.publish u [buildAnalysisFailureDiagnostic msg] (some snap.version)] := by
  induction l with
  | nil => simp [alookup] at hlook
  | cons p rest ih =>
    obtain ⟨k, w⟩ := p
    rw [List.map_cons, List.nodup_cons] at hnd
    by_cases hk : k = u
    · rw [alookup, if_pos hk] at hlook
      obtain rfl := Option.some_injective _ hlook
      rw [List.filterMap_cons]
      have hf : failPubOf key msg (k, w) =
          some (.publish u [buildAnalysisFailureDiagnostic msg] (some w.version)) := by
        rw [failPubOf]
        dsimp only
        rw [hk, if_pos hkey]
      rw [hf, List.filter_cons]
      simp only [isPubFor, decide_eq_true_eq]
      rw [filter_isPubFor_failPubOf_not_mem (hk ▸ hnd.1)]
      simp
    · rw [alookup, if_neg hk] at hlook
      rw [List.filterMap_cons]
      cases hf : failPubOf key msg (k, w) with
      | none => exact ih hnd.2 hlook
      | some o =>
        rw [failPubOf] at hf
        split at hf
        · obtain rfl := Option.some_injective _ hf
          rw [List.filter_cons]
          simp only [isPubFor, decide_eq_true_eq]
          rw [if_neg (by simpa using hk)]
          exact ih hnd.2 hlook
        · exact absurd hf (by simp)

theorem batchFailurePubs_docs_congr {st st' : ServerStateM} {key msg : Str}
    (h : st.documents = st'.documents) :
    batchFailurePubs st key msg = batchFailurePubs st' key msg := by
  rw [batchFailurePubs, batchFailurePubs, h]

theorem batchFailurePubs_no_show {st : ServerStateM} {key msg : Str} {o : Output}
    (ho : o ∈ batchFailurePubs st key msg) : isShow o = false := by
  obtain ⟨u, snap, _, rfl⟩ := batchFailurePubs_mem ho
  rfl

theorem runBatchCore_no_show (st : ServerStateM) (key : Str)
    (resp : Except Str BatchDependencyAnalysisResponse) {o : Output}
    (ho : o ∈ (runBatchCore st key resp).2.1) : isShow o = false := by
  by_cases hpub : isPublish o = true
  · obtain ⟨snap, _, ds, rfl, _⟩ := runBatchCore_pubs st key resp ho hpub
    rfl
  · rw [runBatchCore] at ho
    dsimp only at ho
    split at ho
    · simp at ho
    · split at ho
      · simp at ho
      · split at ho
        · rw [List.mem_singleton] at ho
          rw [ho]
          rfl
        · split at ho
          · rw [List.mem_append] at ho
            rcases ho with ho | ho
            · rw [List.mem_singleton] at ho
              rw [ho]; rfl
            · obtain ⟨rid, rfl⟩ := mem_requestIdLogs ho
              rfl
          · split at ho
            · simp only [List.mem_append] at ho
              rcases ho with (ho | ho) | ho
              · rw [List.mem_singleton] at ho
                rw [ho]; rfl
              · obtain ⟨rid, rfl⟩ := mem_requestIdLogs ho
                rfl
              · obtain ⟨snap, _, hvp⟩ := processWithIds_pubs ho
                obtain ⟨ds, rfl, _⟩ := hvp
                rfl
            · simp only [List.mem_append] at ho
              rcases ho with (ho | ho) | ho
              · rw [List.mem_singleton] at ho
                rw [ho]; rfl
              · obtain ⟨rid, rfl⟩ := mem_requestIdLogs ho
                rfl
              · obtain ⟨p, _, hvp⟩ := processPositional_pubs ho
                obtain ⟨ds, rfl, _⟩ := hvp
                rfl

theorem filter_isShow_eq_nil {l : List Output} (h : ∀ o ∈ l, isShow o = false) :
    l.filter isShow = [] :=
  List.filter_eq_nil_iff.mpr (fun o ho => by rw [h o ho]; exact Bool.false_ne_true)

/-- C7: a whole-batch failure (any `Err` of `run_batch_analysis`: HTTP
transport error or non-2xx, cardinality mismatch, unknown `file_id`) publishes
for *every* document whose workspace key equals the failed key — not only the
drained ones — exactly one publication holding exactly one diagnostic, the
Error-severity failure diagnostic whose message starts with
`"Dependency scan failed: "`; and exactly one `window/showMessage` error is
sent for the batch. -/
theorem c7_batch_failure_blast_radius (st : ServerStateM) (key : Str)
    (resp : Except Str BatchDependencyAnalysisResponse) (msg : Str)
    (hwf : DocsWf st) (hnd : (st.documents.map Prod.fst).Nodup)
    (herr : (runBatchCore st key resp).2.2 = some msg) :
    (∀ u snap, alookup st.documents u = some snap → snapKey snap u = key →
      (batchFailurePubs st key msg).filter (isPubFor u) =
        [.publish u [buildAnalysisFailureDiagnostic msg] (some snap.version)]) ∧
    (taskRun st key resp).2.filter isShow =
      [.showMessage ("Vulnera dependency analysis failed: ".data ++ msg)] ∧
    (buildAnalysisFailureDiagnostic msg).severity = some .error ∧
    (buildAnalysisFailureDiagnostic msg).message =
      "Dependency scan failed: ".data ++ msg ∧
    (taskRun st key resp).2 =
      (runBatchCore st key resp).2.1 ++ batchFailurePubs st key msg
        ++ [.showMessage ("Vulnera dependency analysis failed: ".data ++ msg),
            .logMessage ("Dependency analysis failed: ".data ++ msg)] := by
  have hdocs : (runBatchCore st key resp).1.documents = st.documents :=
    runBatchCore_documents st key resp
  have hbfp : batchFailurePubs (runBatchCore st key resp).1 key msg =
      batchFailurePubs st key msg := batchFailurePubs_docs_congr hdocs
  have htask : (taskRun st key resp).2 =
      (runBatchCore st key resp).2.1 ++ batchFailurePubs st key msg
        ++ [.showMessage ("Vulnera dependency analysis failed: ".data ++ msg),
            .logMessage ("Dependency analysis failed: ".data ++ msg)] := by
    rw [taskRun]
    dsimp only
    split
    · rename_i hnone
      rw [herr] at hnone
      exact absurd hnone (by simp)
    · rename_i msg' heq
      rw [herr] at heq
      obtain rfl := Option.some_injective _ heq
      rw [hbfp]
  refine ⟨?_, ?_, rfl, rfl, htask⟩
  · intro u snap hlook hkey
    rw [batchFailurePubs_eq hwf hnd]
    exact filter_isPubFor_failPubOf hnd hlook hkey
  · rw [htask, List.filter_append, List.filter_append]
    rw [filter_isShow_eq_nil (fun o ho => runBatchCore_no_show st key resp ho)]
    rw [filter_isShow_eq_nil (fun o ho => batchFailurePubs_no_show ho)]
    rfl

def c7SnapA : DocumentSnapshot :=
  { uri := ⟨"file:///w/package.json".data, "/w/package.json".data⟩
    text := "\x7b\x7d".data
    version := 1
    language_id := some "json".data
    file_name := some "package.json".data
    workspace_path := some "/w/package.json".data
    ecosystem := "npm".data }

/-- A second document under the same workspace key that is *not* in the dirty
set: the blast radius must still reach it. -/
def c7SnapB : DocumentSnapshot :=
  { uri := ⟨"file:///w/Cargo.toml".data, "/w/Cargo.toml".data⟩
    text := "[dependencies]\n".data
    version := 9
    language_id := some "toml".data
    file_name := some "Cargo.toml".data
    workspace_path := some "/w/Cargo.toml".data
    ecosystem := "cargo".data }

def c7State : ServerStateM :=
  { documents := [(c7SnapA.uri, c7SnapA), (c7SnapB.uri, c7SnapB)]
    analysis := []
    pending := [("/w".data, 0)]
    dirty_by_workspace := [("/w".data, [c7SnapA.uri])]
    nextToken := 1
    config := ⟨true, false⟩ }

/-- C7 witness: an HTTP failure on a batch drained from one dirty document
publishes the single failure diagnostic to the sibling document too, and one
`showMessage` is sent. -/
theorem c7_batch_failure_blast_radius_witness :
    (batchFailurePubs c7State "/w".data "HTTP request failed".data).filter
        (isPubFor c7SnapB.uri) =
      [.publish c7SnapB.uri
        [buildAnalysisFailureDiagnostic "HTTP request failed".data] (some 9)] ∧
    (taskRun c7State "/w".data (.error "HTTP request failed".data)).2.filter isShow =
      [.showMessage ("Vulnera dependency analysis failed: ".data
        ++ "HTTP request failed".data)] := by
  have h := c7_batch_failure_blast_radius c7State "/w".data
    (.error "HTTP request failed".data) "HTTP request failed".data
    (by decide) (by decide) (by decide)
  exact ⟨h.1 c7SnapB.uri c7SnapB (by decide) (by decide), h.2.1⟩

/-! ## C5: unknown-ecosystem quiescence -/

theorem aremove_sub {β : Type} {l : List (UrlM × β)} {a : UrlM} {p : UrlM × β}
    (hp : p ∈ aremove l a) : p ∈ l := by
  induction l with
  | nil => simp [aremove] at hp
  | cons q rest ih =>
    obtain ⟨k, w⟩ := q
    by_cases hk : k = a
    · rw [aremove, if_pos hk] at hp
      exact List.mem_cons_of_mem _ (ih hp)
    · rw [aremove, if_neg hk] at hp
      rcases List.mem_cons.mp hp with rfl | hp'
      · exact List.mem_cons_self _ _
      · exact List.mem_cons_of_mem _ (ih hp')

theorem alookup_aremove_ne {β : Type} {l : List (UrlM × β)} {a c : UrlM}
    (h : ¬ c = a) : alookup (aremove l a) c = alookup l c := by
  induction l with
  | nil => rfl
  | cons q rest ih =>
    obtain ⟨k, w⟩ := q
    by_cases hk : k = a
    · rw [aremove, if_pos hk, alookup, if_neg (by rw [hk]; exact fun hh => h hh.symm), ih]
    · rw [aremove, if_neg hk, alookup, alookup]
      by_cases hc : k = c
      · rw [if_pos hc, if_pos hc]
      · rw [if_neg hc, if_neg hc, ih]

theorem alookup_ainsert {β : Type} (l : List (UrlM × β)) (a c : UrlM) (b : β) :
    alookup (ainsert l a b) c = if a = c then some b else alookup l c := by
  rw [ainsert, alookup]
  by_cases hc : a = c
  · rw [if_pos hc, if_pos hc]
  · rw [if_neg hc, if_neg hc, alookup_aremove_ne (fun hh => hc hh.symm)]

theorem slookup_sremove_ne {β : Type} {l : List (Str × β)} {a c : Str}
    (h : ¬ c = a) : slookup (sremove l a) c = slookup l c := by
  induction l with
  | nil => rfl
  | cons q rest ih =>
    obtain ⟨k, w⟩ := q
    by_cases hk : k = a
    · rw [sremove, if_pos hk, slookup, if_neg (by rw [hk]; exact fun hh => h hh.symm), ih]
    · rw [sremove, if_neg hk, slookup, slookup]
      by_cases hc : k = c
      · rw [if_pos hc, if_pos hc]
      · rw [if_neg hc, if_neg hc, ih]

theorem slookup_sremove_self {β : Type} (l : List (Str × β)) (a : Str) :
    slookup (sremove l a) a = none := by
  induction l with
  | nil => rfl
  | cons q rest ih =>
    obtain ⟨k, w⟩ := q
    by_cases hk : k = a
    · rw [sremove, if_pos hk, ih]
    · rw [sremove, if_neg hk, slookup, if_neg hk, ih]

theorem slookup_sinsert {β : Type} (l : List (Str × β)) (a c : Str) (b : β) :
    slookup (sinsert l a b) c = if a = c then some b else slookup l c := by
  rw [sinsert, slookup]
  by_cases hc : a = c
  · rw [if_pos hc, if_pos hc]
  · rw [if_neg hc, if_neg hc, slookup_sremove_ne (fun hh => hc hh.symm)]

/-- No dirty set contains a URI with the given serialisation. -/
def DirtyAvoids (u : UrlM) (st : ServerStateM) : Prop :=
  ∀ key us, slookup st.dirty_by_workspace key = some us → ∀ v ∈ us, ¬ v.full = u.full

/-- Any snapshot stored at `u` is of unknown ecosystem. -/
def DocsUnknownAt (u : UrlM) (st : ServerStateM) : Prop :=
  ∀ s, alookup st.documents u = some s → s.ecosystem = "unknown".data

/-- The inductive invariant for unknown-ecosystem quiescence. -/
def QuietInv (u : UrlM) (st : ServerStateM) : Prop :=
  DocsWf st ∧ DocsUnknownAt u st ∧ DirtyAvoids u st

/-- Admissible events for quiescence of `u`: every mutation of `u` stores an
unknown-ecosystem snapshot, and every other document has a distinct URI
serialisation. -/
def eventOkFor (u : UrlM) : Event → Prop
  | .change snap => (snap.uri = u → snap.ecosystem = "unknown".data) ∧
      (¬ snap.uri = u → ¬ snap.uri.full = u.full)
  | .touch v => v = u ∨ ¬ v.full = u.full
  | .fire _ _ => True

instance (u : UrlM) (e : Event) : Decidable (eventOkFor u e) := by
  cases e <;> dsimp [eventOkFor] <;> infer_instance

theorem dirtyAvoids_insert {u : UrlM} {l : List (Str × List UrlM)} {key : Str}
    {v : UrlM}
    (hl : ∀ k us, slookup l k = some us → ∀ x ∈ us, ¬ x.full = u.full)
    (hv : ¬ v.full = u.full) :
    ∀ k us, slookup (dirtyInsert l key v) k = some us → ∀ x ∈ us, ¬ x.full = u.full := by
  intro k us hlook x hx
  rw [dirtyInsert] at hlook
  cases ho : slookup l key with
  | some us0 =>
    rw [ho, slookup_sinsert] at hlook
    by_cases hk : key = k
    · rw [if_pos hk] at hlook
      obtain rfl := Option.some_injective _ hlook
      by_cases hmem : v ∈ us0
      · rw [if_pos hmem] at hx
        exact hl key us0 ho x hx
      · rw [if_neg hmem] at hx
        rcases List.mem_append.mp hx with hx' | hx'
        · exact hl key us0 ho x hx'
        · rw [List.mem_singleton] at hx'
          exact hx' ▸ hv
    · rw [if_neg hk] at hlook
      exact hl k us hlook x hx
  | none =>
    rw [ho, slookup_sinsert] at hlook
    by_cases hk : key = k
    · rw [if_pos hk] at hlook
      obtain rfl := Option.some_injective _ hlook
      rw [List.mem_singleton] at hx
      exact hx ▸ hv
    · rw [if_neg hk] at hlook
      exact hl k us hlook x hx

theorem scheduleAnalysis_quiet {u : UrlM} {st : ServerStateM} (uri : UrlM)
    (hinv : QuietInv u st) (hok : uri = u ∨ ¬ uri.full = u.full) :
    QuietInv u (scheduleAnalysis st uri).1 ∧
    ∀ o ∈ (scheduleAnalysis st uri).2, ∀ req, ¬ o = Output.request req := by
  obtain ⟨hwf, hua, hda⟩ := hinv
  rw [scheduleAnalysis]
  cases hlook : alookup st.documents uri with
  | none => exact ⟨⟨hwf, hua, hda⟩, by simp⟩
  | some snap =>
    dsimp only
    by_cases hunk : snap.ecosystem = "unknown".data
    · rw [if_pos hunk]
      refine ⟨⟨hwf, hua, hda⟩, ?_⟩
      intro o ho req
      rw [List.mem_singleton] at ho
      rw [ho]
      simp
    · rw [if_neg hunk]
      have huri : ¬ uri.full = u.full := by
        rcases hok with rfl | hne
        · exact absurd (hua snap hlook) hunk
        · exact hne
      refine ⟨⟨hwf, hua, dirtyAvoids_insert hda huri⟩, by simp⟩

theorem upsert_quiet {u : UrlM} {st : ServerStateM} {snap : DocumentSnapshot}
    (hinv : QuietInv u st)
    (hok : (snap.uri = u → snap.ecosystem = "unknown".data) ∧
      (¬ snap.uri = u → ¬ snap.uri.full = u.full)) :
    QuietInv u { st with documents := ainsert st.documents snap.uri snap } := by
  obtain ⟨hwf, hua, hda⟩ := hinv
  refine ⟨?_, ?_, hda⟩
  · intro p hp
    rw [ainsert] at hp
    rcases List.mem_cons.mp hp with rfl | hp'
    · rfl
    · exact hwf p (aremove_sub hp')
  · intro s hs
    rw [alookup_ainsert] at hs
    by_cases he : snap.uri = u
    · rw [if_pos he] at hs
      obtain rfl := Option.some_injective _ hs
      exact hok.1 he
    · rw [if_neg he] at hs
      exact hua s hs

theorem drainDirty_eq_none {st : ServerStateM} {key : Str}
    (h : slookup st.dirty_by_workspace key = none) : drainDirty st key = (st, []) := by
  rw [drainDirty, h]

theorem drainDirty_eq_some {st : ServerStateM} {key : Str} {us : List UrlM}
    (h : slookup st.dirty_by_workspace key = some us) :
    drainDirty st key =
      ({ st with dirty_by_workspace := sremove st.dirty_by_workspace key }, us) := by
  rw [drainDirty, h]

theorem fireTask_quiet {u : UrlM} {st : ServerStateM} (key : Str) (tok : Nat)
    (hinv : QuietInv u st) :
    QuietInv u (fireTask st key tok).1 ∧
    ∀ o ∈ (fireTask st key tok).2, ∀ req, o = Output.request req →
      ∀ f ∈ req.files, ¬ f.file_id = some u.full := by
  obtain ⟨hwf, hua, hda⟩ := hinv
  rw [fireTask]
  by_cases hp : slookup st.pending key = some tok
  · rw [if_pos hp]
    cases hd : slookup st.dirty_by_workspace key with
    | none =>
      rw [drainDirty_eq_none hd]
      dsimp only
      have hsnaps : collectSnapshots st [] = [] := rfl
      rw [hsnaps, if_pos rfl]
      exact ⟨⟨hwf, hua, hda⟩, by simp⟩
    | some us0 =>
      rw [drainDirty_eq_some hd]
      dsimp only
      have hinv' : QuietInv u
          { st with
              dirty_by_workspace := sremove st.dirty_by_workspace key
              pending := sremove st.pending key } := by
        refine ⟨hwf, hua, ?_⟩
        intro k us hlook v hv
        dsimp only at hlook
        by_cases hk : k = key
        · rw [hk, slookup_sremove_self] at hlook
          exact absurd hlook (by simp)
        · rw [slookup_sremove_ne hk] at hlook
          exact hda k us hlook v hv
      have hfiles : ∀ cfg : ConfigM,
          ∀ f ∈ (buildRequest cfg (collectSnapshots
            { st with dirty_by_workspace := sremove st.dirty_by_workspace key }
            us0)).files,
          ¬ f.file_id = some u.full := by
        intro cfg f hf
        rw [buildRequest] at hf
        obtain ⟨snap, hsnap, rfl⟩ := List.mem_map.mp hf
        obtain ⟨v, hv, hvl⟩ := collectSnapshots_mem hsnap
        have huri : snap.uri = v := hwf (v, snap) (alookup_mem hvl)
        have hvfull : ¬ v.full = u.full := hda key us0 hd v hv
        intro hcontra
        dsimp only at hcontra
        exact hvfull (by rw [← huri]; exact Option.some_injective _ hcontra)
      split
      · exact ⟨hinv', by simp⟩
      · refine ⟨hinv', ?_⟩
        intro o ho req hreq f hf
        rw [List.mem_singleton] at ho
        rw [ho] at hreq
        injection hreq with h
        rw [← h] at hf
        exact hfiles _ f hf
  · rw [if_neg hp]
    exact ⟨⟨hwf, hua, hda⟩, by simp⟩

theorem runEvents_quiet (u : UrlM) :
    ∀ (events : List Event) (st : ServerStateM), QuietInv u st →
      (∀ e ∈ events, eventOkFor u e) →
      QuietInv u (runEvents st events).1 ∧
      ∀ o ∈ (runEvents st events).2, ∀ req, o = Output.request req →
        ∀ f ∈ req.files, ¬ f.file_id = some u.full := by
  intro events
  induction events with
  | nil =>
    intro st hinv _
    exact ⟨hinv, by simp [runEvents]⟩
  | cons e rest ih =>
    intro st hinv hok
    have hstep : QuietInv u (stepEvent st e).1 ∧
        ∀ o ∈ (stepEvent st e).2, ∀ req, o = Output.request req →
          ∀ f ∈ req.files, ¬ f.file_id = some u.full := by
      have hoke := hok e (List.mem_cons_self _ _)
      cases e with
      | change snap =>
        have h1 := upsert_quiet hinv hoke
        have hscheduri : snap.uri = u ∨ ¬ snap.uri.full = u.full := by
          by_cases he : snap.uri = u
          · exact Or.inl he
          · exact Or.inr (hoke.2 he)
        have h2 := scheduleAnalysis_quiet snap.uri h1 hscheduri
        refine ⟨h2.1, ?_⟩
        intro o ho req hreq
        exact absurd hreq (h2.2 o ho req)
      | touch v =>
        have h2 := scheduleAnalysis_quiet v hinv hoke
        refine ⟨h2.1, ?_⟩
        intro o ho req hreq
        exact absurd hreq (h2.2 o ho req)
      | fire key tok => exact fireTask_quiet key tok hinv
    have hrest := ih (stepEvent st e).1 hstep.1
      (fun e' he' => hok e' (List.mem_cons_of_mem _ he'))
    refine ⟨?_, ?_⟩
    · rw [runEvents]
      exact hrest.1
    · intro o ho req hreq f hf
      rw [runEvents] at ho
      dsimp only at ho
      rcases List.mem_append.mp ho with ho' | ho'
      · exact hstep.2 o ho' req hreq f hf
      · exact hrest.2 o ho' req hreq f hf

theorem initState_quiet (u : UrlM) (cfg : ConfigM) : QuietInv u (initState cfg) := by
  refine ⟨?_, ?_, ?_⟩
  · intro p hp
    simp [initState] at hp
  · intro s hs
    simp [initState, alookup] at hs
  · intro k us hlook
    simp [initState, slookup] at hlook

/-- C5: scheduling an unknown-ecosystem document removes its analysis-cache
entry and publishes an empty diagnostics list with the snapshot's version,
leaving the documents, dirty sets, pending tasks and token counter untouched
and emitting no request; and along any event trace from the initial state in
which every mutation of `u` stores an unknown-ecosystem snapshot (and other
documents have distinct URI serialisations), no emitted HTTP batch request
contains a file for `u`. -/
theorem c5_unknown_ecosystem_quiescence :
    (∀ (st : ServerStateM) (uri : UrlM) (snap : DocumentSnapshot),
      alookup st.documents uri = some snap → snap.ecosystem = "unknown".data →
      scheduleAnalysis st uri =
        ({ st with analysis := aremove st.analysis uri },
         [.publish uri [] (some snap.version)])) ∧
    (∀ (cfg : ConfigM) (u : UrlM) (events : List Event),
      (∀ e ∈ events, eventOkFor u e) →
      ∀ o ∈ (runEvents (initState cfg) events).2, ∀ req, o = Output.request req →
        ∀ f ∈ req.files, ¬ f.file_id = some u.full) := by
  constructor
  · intro st uri snap hlook hunk
    rw [scheduleAnalysis, hlook]
    dsimp only
    rw [if_pos hunk]
  · intro cfg u events hok
    exact (runEvents_quiet u events (initState cfg) (initState_quiet u cfg) hok).2

def c5U : UrlM := ⟨"file:///w/notes.md".data, "/w/notes.md".data⟩

def c5UnknownSnap : DocumentSnapshot :=
  { uri := c5U
    text := "# notes\n".data
    version := 1
    language_id := some "markdown".data
    file_name := some "notes.md".data
    workspace_path := some "/w/notes.md".data
    ecosystem := "unknown".data }

def c5NpmSnap : DocumentSnapshot :=
  { uri := ⟨"file:///w/package.json".data, "/w/package.json".data⟩
    text := "\x7b\x7d".data
    version := 2
    language_id := some "json".data
    file_name := some "package.json".data
    workspace_path := some "/w/package.json".data
    ecosystem := "npm".data }

def c5Events : List Event :=
  [.change c5UnknownSnap, .change c5NpmSnap, .fire "/w".data 0]

def c5File : DependencyFileRequest :=
  { file_id := some "file:///w/package.json".data
    file_content := "\x7b\x7d".data
    ecosystem := "npm".data
    filename := some "package.json".data
    workspace_path := some "/w/package.json".data }

def c5Req : BatchDependencyAnalysisRequest :=
  { files := [c5File], enable_cache := true, compact_mode := false }

def c5CachedResult : FileAnalysisResult :=
  { file_id := none
    ecosystem := "npm".data
    vulnerabilities := []
    version_recommendations := none
    metadata := { total_packages := 0, vulnerable_packages := 0, total_vulnerabilities := 0
                  severity_breakdown := ⟨0, 0, 0, 0⟩ }
    error := none }

def c5PerCallState : ServerStateM :=
  { documents := [(c5U, c5UnknownSnap)]
    analysis := [(c5U, ⟨c5CachedResult, []⟩)]
    pending := []
    dirty_by_workspace := []
    nextToken := 0
    config := ⟨true, false⟩ }

/-- C5 witness: the per-call equation at a concrete unknown-ecosystem
document with a stale cache entry, and the trace statement at a concrete
trace (an unknown-ecosystem edit, an npm edit, a timer expiry) whose one
emitted request carries only the npm file. -/
theorem c5_unknown_ecosystem_quiescence_witness :
    scheduleAnalysis c5PerCallState c5U =
      ({ c5PerCallState with analysis := aremove c5PerCallState.analysis c5U },
       [.publish c5U [] (some 1)]) ∧
    ¬ c5File.file_id = some c5U.full :=
  ⟨c5_unknown_ecosystem_quiescence.1 c5PerCallState c5U c5UnknownSnap (by decide)
      (by decide),
   c5_unknown_ecosystem_quiescence.2 ⟨true, false⟩ c5U c5Events (by decide)
     (.request c5Req) (by decide) c5Req rfl c5File (by decide)⟩

/-! ## C9: debounce coalescing -/

/-- The state transformation of one `did_change`-plus-`schedule_analysis` on a
known, non-unknown document whose workspace key is `k`: upsert, mark dirty,
abort the pending task for `k` and record a fresh token. -/
def schedStep (k : Str) (st : ServerStateM) (snap : DocumentSnapshot) : ServerStateM :=
  { st with
      documents := ainsert st.documents snap.uri snap
      dirty_by_workspace := dirtyInsert st.dirty_by_workspace k snap.uri
      pending := sinsert (sremove st.pending k) k st.nextToken
      nextToken := st.nextToken + 1 }

theorem stepEvent_change_eq {k : Str} {st : ServerStateM} {snap : DocumentSnapshot}
    (hkey : snapKey snap snap.uri = k) (heco : ¬ snap.ecosystem = "unknown".data) :
    stepEvent st (.change snap) = (schedStep k st snap, []) := by
  rw [stepEvent, scheduleAnalysis]
  rw [show alookup (ainsert st.documents snap.uri snap) snap.uri = some snap by
    rw [alookup_ainsert, if_pos rfl]]
  dsimp only
  rw [if_neg heco, snapKey] at *
  rw [hkey]
  rfl

theorem runEvents_changes_eq (k : Str) :
    ∀ (ss : List DocumentSnapshot) (st : ServerStateM),
      (∀ snap ∈ ss, snapKey snap snap.uri = k) →
      (∀ snap ∈ ss, ¬ snap.ecosystem = "unknown".data) →
      runEvents st (ss.map .change) = (ss.foldl (schedStep k) st, []) := by
  intro ss
  induction ss with
  | nil => intro st _ _; rfl
  | cons s rest ih =>
    intro st hkey heco
    rw [List.map_cons, runEvents,
      stepEvent_change_eq (hkey s (List.mem_cons_self _ _))
        (heco s (List.mem_cons_self _ _)),
      ih (schedStep k st s) (fun x hx => hkey x (List.mem_cons_of_mem _ hx))
        (fun x hx => heco x (List.mem_cons_of_mem _ hx))]
    rfl

theorem foldl_schedStep_config (k : Str) :
    ∀ (ss : List DocumentSnapshot) (st : ServerStateM),
      (ss.foldl (schedStep k) st).config = st.config := by
  intro ss
  induction ss with
  | nil => intro st; rfl
  | cons s rest ih => intro st; rw [List.foldl_cons, ih]; rfl

theorem foldl_schedStep_nextToken (k : Str) :
    ∀ (ss : List DocumentSnapshot) (st : ServerStateM),
      (ss.foldl (schedStep k) st).nextToken = st.nextToken + ss.length := by
  intro ss
  induction ss with
  | nil => intro st; rfl
  | cons s rest ih =>
    intro st
    rw [List.foldl_cons, ih]
    rw [List.length_cons]
    rw [show (schedStep k st s).nextToken = st.nextToken + 1 from rfl]
    omega

theorem foldl_schedStep_wf (k : Str) :
    ∀ (ss : List DocumentSnapshot) (st : ServerStateM),
      DocsWf st → DocsWf (ss.foldl (schedStep k) st) := by
  intro ss
  induction ss with
  | nil => intro st h; exact h
  | cons s rest ih =>
    intro st h
    rw [List.foldl_cons]
    refine ih _ ?_
    intro p hp
    rw [show (schedStep k st s).documents = ainsert st.documents s.uri s from rfl,
      ainsert] at hp
    rcases List.mem_cons.mp hp with rfl | hp'
    · rfl
    · exact h p (aremove_sub hp')

theorem foldl_schedStep_pending (k : Str) :
    ∀ (ss : List DocumentSnapshot) (st : ServerStateM), ¬ ss = [] →
      slookup (ss.foldl (schedStep k) st).pending k =
        some (st.nextToken + ss.length - 1) := by
  intro ss
  induction ss with
  | nil => intro st h; exact absurd rfl h
  | cons s rest ih =>
    intro st _
    rw [List.foldl_cons]
    cases hrest : rest with
    | nil =>
      rw [List.foldl_nil, show (schedStep k st s).pending =
        sinsert (sremove st.pending k) k st.nextToken from rfl,
        slookup_sinsert, if_pos rfl]
      simp
    | cons r rest' =>
      rw [← hrest]
      have hne : ¬ rest = [] := by rw [hrest]; simp
      rw [ih (schedStep k st s) hne]
      rw [show (schedStep k st s).nextToken = st.nextToken + 1 from rfl,
        List.length_cons]
      congr 1
      omega

/-- A document that is present with a non-unknown ecosystem. -/
def GoodDoc (st : ServerStateM) (v : UrlM) : Prop :=
  ∃ s, alookup st.documents v = some s ∧ ¬ s.ecosystem = "unknown".data

/-- Every URI in any dirty set is a good document. -/
def DirtyGood (st : ServerStateM) : Prop :=
  ∀ k' us v, slookup st.dirty_by_workspace k' = some us → v ∈ us → GoodDoc st v

theorem goodDoc_schedStep {k : Str} {st : ServerStateM} {snap : DocumentSnapshot}
    {v : UrlM} (heco : ¬ snap.ecosystem = "unknown".data) (h : GoodDoc st v) :
    GoodDoc (schedStep k st snap) v := by
  obtain ⟨s, hs, hse⟩ := h
  rw [GoodDoc, show (schedStep k st snap).documents = ainsert st.documents snap.uri snap
    from rfl, alookup_ainsert]
  by_cases he : snap.uri = v
  · exact ⟨snap, by rw [if_pos he], heco⟩
  · exact ⟨s, by rw [if_neg he]; exact hs, hse⟩

theorem dirtyInsert_mem_inv {l : List (Str × List UrlM)} {key k' : Str} {v x : UrlM}
    {us' : List UrlM} (hlook : slookup (dirtyInsert l key v) k' = some us')
    (hx : x ∈ us') :
    (∃ us, slookup l k' = some us ∧ x ∈ us) ∨ (k' = key ∧ x = v) := by
  rw [dirtyInsert] at hlook
  cases ho : slookup l key with
  | some us0 =>
    rw [ho, slookup_sinsert] at hlook
    by_cases hk : key = k'
    · rw [if_pos hk] at hlook
      obtain rfl := Option.some_injective _ hlook
      by_cases hmem : v ∈ us0
      · rw [if_pos hmem] at hx
        exact Or.inl ⟨us0, by rw [← hk]; exact ho, hx⟩
      · rw [if_neg hmem] at hx
        rcases List.mem_append.mp hx with hx' | hx'
        · exact Or.inl ⟨us0, by rw [← hk]; exact ho, hx'⟩
        · rw [List.mem_singleton] at hx'
          exact Or.inr ⟨hk.symm, hx'⟩
    · rw [if_neg hk] at hlook
      exact Or.inl ⟨us', hlook, hx⟩
  | none =>
    rw [ho, slookup_sinsert] at hlook
    by_cases hk : key = k'
    · rw [if_pos hk] at hlook
      obtain rfl := Option.some_injective _ hlook
      rw [List.mem_singleton] at hx
      exact Or.inr ⟨hk.symm, hx⟩
    · rw [if_neg hk] at hlook
      exact Or.inl ⟨us', hlook, hx⟩

theorem dirtyGood_schedStep {k : Str} {st : ServerStateM} {snap : DocumentSnapshot}
    (heco : ¬ snap.ecosystem = "unknown".data) (h : DirtyGood st) :
    DirtyGood (schedStep k st snap) := by
  intro k' us v hlook hv
  have hd : slookup (dirtyInsert st.dirty_by_workspace k snap.uri) k' = some us := hlook
  rcases dirtyInsert_mem_inv hd hv with ⟨us0, hus0, hv0⟩ | ⟨_, rfl⟩
  · exact goodDoc_schedStep heco (h k' us0 v hus0 hv0)
  · refine ⟨snap, ?_, heco⟩
    rw [show (schedStep k st snap).documents = ainsert st.documents snap.uri snap
      from rfl, alookup_ainsert, if_pos rfl]

theorem foldl_schedStep_dirtyGood (k : Str) :
    ∀ (ss : List DocumentSnapshot) (st : ServerStateM),
      (∀ snap ∈ ss, ¬ snap.ecosystem = "unknown".data) →
      DirtyGood st → DirtyGood (ss.foldl (schedStep k) st) := by
  intro ss
  induction ss with
  | nil => intro st _ h; exact h
  | cons s rest ih =>
    intro st heco h
    rw [List.foldl_cons]
    exact ih _ (fun x hx => heco x (List.mem_cons_of_mem _ hx))
      (dirtyGood_schedStep (heco s (List.mem_cons_self _ _)) h)

theorem dirtyInsert_eq_some {l : List (Str × List UrlM)} {key : Str}
    {us0 : List UrlM} (v : UrlM) (h : slookup l key = some us0) :
    dirtyInsert l key v = sinsert l key (if v ∈ us0 then us0 else us0 ++ [v]) := by
  rw [dirtyInsert, h]

theorem dirtyInsert_eq_none {l : List (Str × List UrlM)} {key : Str} (v : UrlM)
    (h : slookup l key = none) : dirtyInsert l key v = sinsert l key [v] := by
  rw [dirtyInsert, h]

theorem dirtyInsert_self_mem (l : List (Str × List UrlM)) (key : Str) (v : UrlM) :
    ∃ us, slookup (dirtyInsert l key v) key = some us ∧ v ∈ us := by
  cases ho : slookup l key with
  | some us0 =>
    rw [dirtyInsert_eq_some v ho, slookup_sinsert, if_pos rfl]
    refine ⟨_, rfl, ?_⟩
    by_cases hmem : v ∈ us0
    · rw [if_pos hmem]; exact hmem
    · rw [if_neg hmem]; exact List.mem_append.mpr (Or.inr (List.mem_singleton.mpr rfl))
  | none =>
    rw [dirtyInsert_eq_none v ho, slookup_sinsert, if_pos rfl]
    exact ⟨[v], rfl, List.mem_singleton.mpr rfl⟩

theorem dirtyInsert_mono {l : List (Str × List UrlM)} {k' : Str} {us : List UrlM}
    {x : UrlM} (key : Str) (v : UrlM) (h : slookup l k' = some us) (hx : x ∈ us) :
    ∃ us', slookup (dirtyInsert l key v) k' = some us' ∧ x ∈ us' := by
  cases ho : slookup l key with
  | some us0 =>
    rw [dirtyInsert_eq_some v ho, slookup_sinsert]
    by_cases hk : key = k'
    · subst hk
      have heq : us0 = us := Option.some_injective _ (ho.symm.trans h)
      subst heq
      rw [if_pos rfl]
      refine ⟨_, rfl, ?_⟩
      by_cases hmem : v ∈ us0
      · rw [if_pos hmem]; exact hx
      · rw [if_neg hmem]; exact List.mem_append.mpr (Or.inl hx)
    · rw [if_neg hk]
      exact ⟨us, h, hx⟩
  | none =>
    by_cases hk : key = k'
    · subst hk
      rw [ho] at h
      exact absurd h (by simp)
    · rw [dirtyInsert_eq_none v ho, slookup_sinsert, if_neg hk]
      exact ⟨us, h, hx⟩

theorem foldl_schedStep_dirty_mono (k : Str) :
    ∀ (ss : List DocumentSnapshot) (st : ServerStateM) (k' : Str) (x : UrlM)
      (us : List UrlM),
      slookup st.dirty_by_workspace k' = some us → x ∈ us →
      ∃ us', slookup (ss.foldl (schedStep k) st).dirty_by_workspace k' = some us' ∧
        x ∈ us' := by
  intro ss
  induction ss with
  | nil =>
    intro st k' x us h hx
    exact ⟨us, h, hx⟩
  | cons s rest ih =>
    intro st k' x us h hx
    rw [List.foldl_cons]
    obtain ⟨us1, hus1, hx1⟩ := dirtyInsert_mono k s.uri h hx
    exact ih (schedStep k st s) k' x us1 hus1 hx1

theorem foldl_schedStep_coverage (k : Str) :
    ∀ (ss : List DocumentSnapshot) (st : ServerStateM),
      ∀ snap ∈ ss, ∃ us, slookup (ss.foldl (schedStep k) st).dirty_by_workspace k
        = some us ∧ snap.uri ∈ us := by
  intro ss
  induction ss with
  | nil => intro st snap h; simp at h
  | cons s rest ih =>
    intro st snap hmem
    rw [List.foldl_cons]
    rcases List.mem_cons.mp hmem with rfl | htail
    · obtain ⟨us0, hus0, hv0⟩ :=
        dirtyInsert_self_mem st.dirty_by_workspace k snap.uri
      exact foldl_schedStep_dirty_mono k rest (schedStep k st snap) k snap.uri us0
        hus0 hv0
    · exact ih _ snap htail

theorem runEvents_append (st : ServerStateM) (a b : List Event) :
    runEvents st (a ++ b) =
      ((runEvents (runEvents st a).1 b).1,
       (runEvents st a).2 ++ (runEvents (runEvents st a).1 b).2) := by
  induction a generalizing st with
  | nil => simp [runEvents]
  | cons e rest ih =>
    rw [List.cons_append, runEvents, runEvents, ih]
    dsimp only
    rw [List.append_assoc]

theorem fireTask_stale {st : ServerStateM} {k : Str} {tok : Nat}
    (h : ¬ slookup st.pending k = some tok) : fireTask st k tok = (st, []) := by
  rw [fireTask, if_neg h]

theorem runEvents_stale_fires (k : Str) :
    ∀ (l : List Nat) (st : ServerStateM),
      (∀ i ∈ l, ¬ slookup st.pending k = some i) →
      runEvents st (l.map (.fire k)) = (st, []) := by
  intro l
  induction l with
  | nil => intro st _; rfl
  | cons i rest ih =>
    intro st h
    rw [List.map_cons, runEvents,
      show stepEvent st (.fire k i) = fireTask st k i from rfl,
      fireTask_stale (h i (List.mem_cons_self _ _)),
      ih st (fun j hj => h j (List.mem_cons_of_mem _ hj))]
    rfl

theorem mem_collectSnapshots {st : ServerStateM} {us : List UrlM} {v : UrlM}
    {s : DocumentSnapshot} (hv : v ∈ us) (hl : alookup st.documents v = some s)
    (he : ¬ s.ecosystem = "unknown".data) : s ∈ collectSnapshots st us := by
  rw [collectSnapshots]
  refine List.mem_filter.mpr ⟨List.mem_filterMap.mpr ⟨v, hv, hl⟩, ?_⟩
  simpa using he

theorem fireTask_real {st : ServerStateM} {k : Str} {tok : Nat} {us : List UrlM}
    (hpend : slookup st.pending k = some tok)
    (hd : slookup st.dirty_by_workspace k = some us)
    (hsnaps : ¬ collectSnapshots
      { st with dirty_by_workspace := sremove st.dirty_by_workspace k } us = []) :
    fireTask st k tok =
      ({ st with dirty_by_workspace := sremove st.dirty_by_workspace k
                 pending := sremove st.pending k },
       [.request (buildRequest st.config (collectSnapshots
         { st with dirty_by_workspace := sremove st.dirty_by_workspace k } us))]) := by
  rw [fireTask, if_pos hpend, drainDirty_eq_some hd]
  dsimp only
  rw [if_neg hsnaps]

/-- C9: starting from the initial state, N successive `didChange`-style
events on documents of one workspace key (each aborting the pending debounce
task and spawning a fresh one), followed by the expiries of all N spawned
timers, dispatch exactly one HTTP batch request; its body carries, for every
file, the current (final) text of the corresponding stored document, and
every edited document is represented in it. -/
theorem c9_debounce_coalescing (cfg : ConfigM) (k : Str)
    (ss : List DocumentSnapshot) (hne : ¬ ss = [])
    (hkey : ∀ snap ∈ ss, snapKey snap snap.uri = k)
    (heco : ∀ snap ∈ ss, ¬ snap.ecosystem = "unknown".data) :
    ∃ req,
      (runEvents (initState cfg)
        (ss.map .change ++ (List.range ss.length).map (.fire k))).2 = [.request req] ∧
      (∀ f ∈ req.files, ∃ v snap,
        alookup (runEvents (initState cfg)
          (ss.map .change ++ (List.range ss.length).map (.fire k))).1.documents v
            = some snap ∧
        snap.uri = v ∧ f.file_id = some v.full ∧ f.file_content = snap.text) ∧
      (∀ snap ∈ ss, ∃ f ∈ req.files, f.file_id = some snap.uri.full) := by
  have hchanges := runEvents_changes_eq k ss (initState cfg) hkey heco
  have hwf1 : DocsWf (ss.foldl (schedStep k) (initState cfg)) :=
    foldl_schedStep_wf k ss (initState cfg) (fun p hp => by simp [initState] at hp)
  have hpend : slookup (ss.foldl (schedStep k) (initState cfg)).pending k
      = some (ss.length - 1) := by
    have h := foldl_schedStep_pending k ss (initState cfg) hne
    rw [show (initState cfg).nextToken = 0 from rfl] at h
    rw [h]
    congr 1
    omega
  have hdg : DirtyGood (ss.foldl (schedStep k) (initState cfg)) :=
    foldl_schedStep_dirtyGood k ss (initState cfg) heco
      (fun k' us v hlook _ => by simp [initState, slookup] at hlook)
  have hcfg : (ss.foldl (schedStep k) (initState cfg)).config = cfg :=
    foldl_schedStep_config k ss (initState cfg)
  obtain ⟨shead, hshead⟩ := List.exists_mem_of_ne_nil ss hne
  obtain ⟨us, hus, hheadmem⟩ := foldl_schedStep_coverage k ss (initState cfg) shead hshead
  obtain ⟨s0, hl0, he0⟩ := hdg k us shead.uri hus hheadmem
  have hsnaps_ne : ¬ collectSnapshots
      { ss.foldl (schedStep k) (initState cfg) with
          dirty_by_workspace :=
            sremove (ss.foldl (schedStep k) (initState cfg)).dirty_by_workspace k }
      us = [] := by
    intro hcontra
    have hl0' : alookup ({ ss.foldl (schedStep k) (initState cfg) with
        dirty_by_workspace :=
          sremove (ss.foldl (schedStep k) (initState cfg)).dirty_by_workspace
            k } : ServerStateM).documents shead.uri = some s0 := hl0
    have hmem := mem_collectSnapshots hheadmem hl0' he0
    rw [hcontra] at hmem
    simp at hmem
  have hfire := fireTask_real hpend hus hsnaps_ne
  have hrange : List.range ss.length = List.range (ss.length - 1) ++ [ss.length - 1] := by
    have hl : 0 < ss.length := List.length_pos.mpr hne
    conv_lhs => rw [show ss.length = (ss.length - 1) + 1 by omega]
    rw [List.range_succ]
  have hstale : runEvents (ss.foldl (schedStep k) (initState cfg))
      ((List.range (ss.length - 1)).map (.fire k))
      = (ss.foldl (schedStep k) (initState cfg), []) := by
    refine runEvents_stale_fires k _ _ (fun i hi hcontra => ?_)
    rw [hpend] at hcontra
    have hii := Option.some_injective _ hcontra
    rw [List.mem_range] at hi
    omega
  have hrun : runEvents (initState cfg)
      (ss.map .change ++ (List.range ss.length).map (.fire k)) =
      (({ ss.foldl (schedStep k) (initState cfg) with
          dirty_by_workspace :=
            sremove (ss.foldl (schedStep k) (initState cfg)).dirty_by_workspace k
          pending := sremove (ss.foldl (schedStep k) (initState cfg)).pending k }),
       [.request (buildRequest cfg (collectSnapshots
         { ss.foldl (schedStep k) (initState cfg) with
             dirty_by_workspace :=
               sremove (ss.foldl (schedStep k) (initState cfg)).dirty_by_workspace k }
         us))]) := by
    rw [runEvents_append, hchanges]
    dsimp only
    rw [hrange, List.map_append, runEvents_append, hstale]
    dsimp only
    rw [List.map_singleton, runEvents,
      show ∀ st, stepEvent st (.fire k (ss.length - 1)) = fireTask st k (ss.length - 1)
        from fun _ => rfl, hfire]
    dsimp only
    rw [runEvents]
    dsimp only
    rw [hcfg]
    simp
  refine ⟨buildRequest cfg (collectSnapshots
    { ss.foldl (schedStep k) (initState cfg) with
        dirty_by_workspace :=
          sremove (ss.foldl (schedStep k) (initState cfg)).dirty_by_workspace k }
    us), by rw [hrun], ?_, ?_⟩
  · intro f hf
    rw [buildRequest] at hf
    obtain ⟨snap, hsnap, rfl⟩ := List.mem_map.mp hf
    obtain ⟨v, _, hvl⟩ := collectSnapshots_mem hsnap
    have hvl1 : alookup (ss.foldl (schedStep k) (initState cfg)).documents v
        = some snap := hvl
    have huri : snap.uri = v := hwf1 (v, snap) (alookup_mem hvl1)
    refine ⟨v, snap, ?_, huri, ?_, rfl⟩
    · rw [hrun]
      exact hvl1
    · dsimp only
      rw [huri]
  · intro snap hmem
    obtain ⟨us', hus', hmem'⟩ :=
      foldl_schedStep_coverage k ss (initState cfg) snap hmem
    have heqs : us' = us := Option.some_injective _ (hus'.symm.trans hus)
    subst heqs
    obtain ⟨s', hl', he'⟩ := hdg k us' snap.uri hus' hmem'
    have huri' : s'.uri = snap.uri := hwf1 (snap.uri, s') (alookup_mem hl')
    refine ⟨{ file_id := some s'.uri.full
              file_content := s'.text
              ecosystem := s'.ecosystem
              filename := s'.file_name
              workspace_path := s'.workspace_path }, ?_, ?_⟩
    · rw [buildRequest]
      exact List.mem_map.mpr ⟨s', mem_collectSnapshots hmem' hl' he', rfl⟩
    · rw [huri']

/-- The first of two successive edits of one npm manifest. -/
def c9SnapV1 : DocumentSnapshot :=
  { uri := ⟨"file:///w/package.json".data, "/w/package.json".data⟩
    text := "\x7b \"dependencies\": \x7b \"lodash\": \"4.17.20\" \x7d \x7d".data
    version := 1
    language_id := some "json".data
    file_name := some "package.json".data
    workspace_path := some "/w/package.json".data
    ecosystem := "npm".data }

/-- The second edit of the same document: its text must be the one batched. -/
def c9SnapV2 : DocumentSnapshot :=
  { uri := ⟨"file:///w/package.json".data, "/w/package.json".data⟩
    text := "\x7b \"dependencies\": \x7b \"lodash\": \"4.17.21\" \x7d \x7d".data
    version := 2
    language_id := some "json".data
    file_name := some "package.json".data
    workspace_path := some "/w/package.json".data
    ecosystem := "npm".data }

/-- C9 witness: two edits of one document followed by both timer expiries
yield exactly one request, whose file carries the final text. -/
theorem c9_debounce_coalescing_witness :
    ∃ req,
      (runEvents (initState ⟨true, false⟩)
        ([c9SnapV1, c9SnapV2].map .change
          ++ (List.range [c9SnapV1, c9SnapV2].length).map (.fire "/w".data))).2
        = [.request req] ∧
      (∀ f ∈ req.files, ∃ v snap,
        alookup (runEvents (initState ⟨true, false⟩)
          ([c9SnapV1, c9SnapV2].map .change
            ++ (List.range [c9SnapV1, c9SnapV2].length).map
              (.fire "/w".data))).1.documents v = some snap ∧
        snap.uri = v ∧ f.file_id = some v.full ∧ f.file_content = snap.text) ∧
      (∀ snap ∈ [c9SnapV1, c9SnapV2], ∃ f ∈ req.files,
        f.file_id = some snap.uri.full) :=
  c9_debounce_coalescing ⟨true, false⟩ "/w".data [c9SnapV1, c9SnapV2]
    (by decide) (by decide) (by decide)

end Vulnera
